import Mathlib

/-!
# Invoice generator (`script.js`): form validation, logo upload, PDF layout, templates

A shallow embedding of the PDF-generation module of the invoice generator.
The browser is modelled by explicit state: the form controls of the page are a list of
`Field` records, the `.form-group` wrappers are looked up by number, and the
jsPDF collaborator is a recorded sequence of calls together with an oracle that says
which call raises.

JavaScript strings are Lean strings read through their character lists.
JavaScript numbers are `JSNum`: not-a-number, the two infinities, or a finite value.
The decimal-to-double conversion of the built-in `parseFloat` is not part of the
program; it is a parameter of the functions that call it.
-/

namespace InvoiceGenerator

/-! ## JavaScript values -/

/-- The code points ECMAScript counts as white space or line terminators: what
`String.prototype.trim` strips and what the regular expression class `\s` matches. -/
def isJsWhitespace (c : Char) : Bool :=
  let n := c.toNat
  n == 0x09 || n == 0x0A || n == 0x0B || n == 0x0C || n == 0x0D || n == 0x20 ||
  n == 0xA0 || n == 0x1680 || (0x2000 ≤ n && n ≤ 0x200A) || n == 0x2028 ||
  n == 0x2029 || n == 0x202F || n == 0x205F || n == 0x3000 || n == 0xFEFF

/-- The characters of `s.trim()`: white space removed from both ends. -/
def trimChars (cs : List Char) : List Char :=
  ((cs.dropWhile isJsWhitespace).reverse.dropWhile isJsWhitespace).reverse

/-- The method `String.prototype.trim`. -/
def jsTrim (s : String) : String := String.mk (trimChars s.data)

/-- JavaScript truthiness of a string: `!s` holds exactly for the empty string. -/
def truthy (s : String) : Bool := !s.data.isEmpty

/-- The method `String.prototype.startsWith`. -/
def startsWith (s pre : String) : Bool := pre.data.isPrefixOf s.data

/-- A JavaScript number. -/
inductive JSNum where
  | nan
  | negInf
  | fin (q : ℚ)
  | posInf
  deriving DecidableEq

namespace JSNum

/-- The global function `isNaN` on a number. -/
def isNaN : JSNum → Bool
  | nan => true
  | _ => false

/-- The operator `<` on numbers: false as soon as one side is NaN. -/
def lt : JSNum → JSNum → Bool
  | nan, _ => false
  | _, nan => false
  | negInf, negInf => false
  | negInf, _ => true
  | _, negInf => false
  | fin a, fin b => decide (a < b)
  | fin _, posInf => true
  | posInf, _ => false

end JSNum

/-- The test `min !== null` on the result of `parseFloat`, which is always a number. -/
def notNull (_ : JSNum) : Bool := true

/-- `parseFloat(v)` where `v` is an attribute value: `getAttribute` gives `null` for
an attribute that is not declared, `parseFloat` turns `null` into the string
"null", and that string has no numeric prefix. -/
def parseFloatAttr (parseFloat : String → JSNum) : Option String → JSNum
  | none => JSNum.nan
  | some s => parseFloat s

/-! ## Calendar dates and the `Date` constructor -/

/-- A calendar date as a date input holds it. -/
structure CalDate where
  year : Nat
  month : Nat
  day : Nat
  deriving DecidableEq, Repr

/-- Leap years of the proleptic Gregorian calendar. -/
def isLeapYear (y : Nat) : Bool := y % 4 == 0 && (y % 100 != 0 || y % 400 == 0)

/-- Number of days of month `m` (1 to 12) in year `y`. -/
def daysInMonth (y m : Nat) : Nat :=
  if m == 2 then (if isLeapYear y then 29 else 28)
  else if m == 4 || m == 6 || m == 9 || m == 11 then 30
  else 31

/-- A date the calendar has, with a four-digit year (the form `YYYY-MM-DD`). -/
def CalDate.valid (a : CalDate) : Bool :=
  a.year ≤ 9999 && 1 ≤ a.month && a.month ≤ 12 && 1 ≤ a.day && a.day ≤ daysInMonth a.year a.month

/-- Calendar order: `a` is an earlier day than `b`. -/
def CalDate.earlier (a b : CalDate) : Bool :=
  a.year < b.year || (a.year == b.year && (a.month < b.month ||
    (a.month == b.month && a.day < b.day)))

/-- ECMAScript `DayFromYear`: the day number of 1 January of year `y`, counted from
1 January 1970. -/
def dayFromYear (y : Nat) : Int :=
  365 * ((y : Int) - 1970) + ((y : Int) - 1969) / 4 - ((y : Int) - 1901) / 100
    + ((y : Int) - 1601) / 400

/-- Days of year `y` that come before month `m` (1 to 12). -/
def daysBeforeMonth (y m : Nat) : Nat :=
  ((List.range (m - 1)).map (fun i => daysInMonth y (i + 1))).sum

/-- ECMAScript `MakeDay`: the day number of a calendar date. -/
def makeDay (a : CalDate) : Int :=
  dayFromYear a.year + daysBeforeMonth a.year a.month + ((a.day : Int) - 1)

/-- Milliseconds in a day. -/
def msPerDay : Int := 86400000

/-- ECMAScript `MakeDate` at time 0: the time value of midnight UTC of a date. -/
def timeValue (a : CalDate) : Int := makeDay a * msPerDay

/-- The decimal digit `n % 10` as a character. -/
def digitChar (n : Nat) : Char := Char.ofNat (48 + n % 10)

/-- The value of a decimal digit character. -/
def digitVal (c : Char) : Option Nat :=
  if 48 ≤ c.toNat ∧ c.toNat ≤ 57 then some (c.toNat - 48) else none

/-- The value of a date input: `YYYY-MM-DD`. -/
def CalDate.toIso (a : CalDate) : String :=
  String.mk [digitChar (a.year / 1000), digitChar (a.year / 100), digitChar (a.year / 10),
    digitChar a.year, '-', digitChar (a.month / 10), digitChar a.month, '-',
    digitChar (a.day / 10), digitChar a.day]

/-- Reads the date-only form `YYYY-MM-DD`. -/
def parseIsoDate (s : String) : Option CalDate :=
  match s.data with
  | [y3, y2, y1, y0, s1, m1, m0, s2, d1, d0] =>
    if s1 = '-' ∧ s2 = '-' then
      match digitVal y3, digitVal y2, digitVal y1, digitVal y0, digitVal m1, digitVal m0,
          digitVal d1, digitVal d0 with
      | some a, some b, some c, some d, some e, some f, some g, some h =>
        some ⟨a * 1000 + b * 100 + c * 10 + d, e * 10 + f, g * 10 + h⟩
      | _, _, _, _, _, _, _, _ => none
    else none
  | _ => none

/-- The time value of `new Date(s)` for the strings a date input can hold: the
date-only form is read as midnight UTC of that day; the empty string, and a string that
names no calendar day, give an invalid date, whose time value is NaN. -/
def newDate (s : String) : JSNum :=
  match parseIsoDate s with
  | some a => if a.valid then JSNum.fin (timeValue a) else JSNum.nan
  | none => JSNum.nan

/-! ## The form -/

/-- The `.error-message` element of a form group. -/
structure ErrorMessage where
  textContent : String
  display : String
  deriving DecidableEq, Repr

/-- A `.form-group` wrapper: whether its class list has `error`, and its
`.error-message` child when it has one. -/
structure FormGroup where
  error : Bool
  errorMessage : Option ErrorMessage
  deriving DecidableEq, Repr

/-- A form control. `group` is the number of the form group `closest('.form-group')`
finds for it. -/
structure Field where
  id : String
  type : String
  required : Bool
  min : Option String
  value : String
  checked : Bool
  group : Nat
  deriving DecidableEq, Repr

/-- The page: the controls of `#invoiceForm` in document order and the form groups. -/
structure Document where
  fields : List Field
  groups : Nat → FormGroup

namespace Document

/-- The method `document.getElementById`, on the form controls. -/
def getElementById (doc : Document) (id : String) : Option Field :=
  doc.fields.find? (fun f => f.id == id)

/-- The page has the two elements `validateField` looks up for a date field. -/
def hasDateElements (doc : Document) : Bool :=
  (doc.getElementById "invoiceDate").isSome && (doc.getElementById "dueDate").isSome

/-- Replaces form group `g`. -/
def setGroup (doc : Document) (g : Nat) (fg : FormGroup) : Document :=
  { doc with groups := fun i => if i = g then fg else doc.groups i }

/-- The call `formGroup.classList.remove('error')`. -/
def removeError (doc : Document) (g : Nat) : Document :=
  doc.setGroup g { doc.groups g with error := false }

/-- The call `formGroup.classList.add('error')`. -/
def addError (doc : Document) (g : Nat) : Document :=
  doc.setGroup g { doc.groups g with error := true }

/-- The two assignments to the error message element, when the group has one. -/
def showMessage (doc : Document) (g : Nat) (text : String) : Document :=
  match (doc.groups g).errorMessage with
  | some _ => doc.setGroup g { doc.groups g with errorMessage := some ⟨text, "block"⟩ }
  | none => doc

end Document

/-- The required-and-empty test of `validateField`:
`field.hasAttribute('required') && !field.value.trim()`. -/
def requiredEmpty (field : Field) : Bool :=
  field.required && !truthy (jsTrim field.value)

/-- The number-field test of `validateField`: the field has type `number` and its value
does not parse, or parses below the parsed `min` attribute. -/
def numberInvalid (parseFloat : String → JSNum) (field : Field) : Bool :=
  field.type == "number" &&
    (let value := parseFloat field.value
     let min := parseFloatAttr parseFloat field.min
     value.isNaN || (notNull min && value.lt min))

/-- The function `validateField`. The result is `none` when the call raises, which
it does when a date field is validated on a page without an `invoiceDate` or a
`dueDate` element; otherwise it is the returned boolean and the page afterwards. -/
def validateField (parseFloat : String → JSNum) (doc : Document) (field : Field) :
    Option (Bool × Document) :=
  let g := field.group
  -- Remove previous error state
  let doc := doc.removeError g
  -- Check if field is required and empty
  if requiredEmpty field then
    some (false, doc.addError g)
  -- Validate number fields
  else if numberInvalid parseFloat field then
    some (false, doc.addError g)
  -- Validate date fields
  else if field.type == "date" then
    match doc.getElementById "invoiceDate", doc.getElementById "dueDate" with
    | some inv, some due =>
      let invoiceDate := newDate inv.value
      let dueDate := newDate due.value
      if field.id == "dueDate" && dueDate.lt invoiceDate then
        some (false, (doc.addError g).showMessage g "Due date must be after invoice date")
      else some (true, doc)
    | _, _ => none
  else some (true, doc)

/-- The required controls: `form.querySelectorAll('[required]')`. -/
def requiredFields (doc : Document) : List Field := doc.fields.filter (fun f => f.required)

/-- One round of the `forEach` of `validateForm`. -/
def validateStep (parseFloat : String → JSNum) (acc : Bool × Document) (field : Field) :
    Option (Bool × Document) :=
  match validateField parseFloat acc.2 field with
  | some (ok, doc) => some (if !ok then false else acc.1, doc)
  | none => none

/-- The `forEach` of `validateForm` over the fields `fs`. -/
def validateAll (parseFloat : String → JSNum) :
    List Field → Bool × Document → Option (Bool × Document)
  | [], acc => some acc
  | f :: fs, acc =>
    match validateStep parseFloat acc f with
    | some acc1 => validateAll parseFloat fs acc1
    | none => none

/-- The function `validateForm`: `none` when a `validateField` call raises. -/
def validateForm (parseFloat : String → JSNum) (doc : Document) : Option (Bool × Document) :=
  validateAll parseFloat (requiredFields doc) (true, doc)

/-- The boolean a `validateField` call returns, `none` when it raises. -/
def verdict (parseFloat : String → JSNum) (doc : Document) (field : Field) : Option Bool :=
  (validateField parseFloat doc field).map Prod.fst

/-! ## A reading of `parseFloat` and a sample page, to run the model on -/

/-- Decimal digit characters. -/
def isDigit (c : Char) : Bool := 48 ≤ c.toNat && c.toNat ≤ 57

/-- The number a string of decimal digits writes. -/
def digitsValue (cs : List Char) : Nat := cs.foldl (fun n c => 10 * n + (c.toNat - 48)) 0

/-- A reading of the built-in `parseFloat` on plain decimal numerals (white space, a
sign, digits, a fraction), without the rounding to a double and without exponents:
the longest numeric prefix is read, and a string without one gives NaN. The validation
functions take `parseFloat` as a parameter; this reading is one value of it. -/
def parseFloatPlain (s : String) : JSNum :=
  let cs := s.data.dropWhile isJsWhitespace
  let neg := cs.head? == some '-'
  let cs := if cs.head? == some '-' || cs.head? == some '+' then cs.tail else cs
  let ip := cs.takeWhile isDigit
  let fp := match cs.dropWhile isDigit with
    | '.' :: r => r.takeWhile isDigit
    | _ => []
  if ip.isEmpty && fp.isEmpty then JSNum.nan
  else
    let n : Int := digitsValue ip * 10 ^ fp.length + digitsValue fp
    JSNum.fin (mkRat (if neg then -n else n) (10 ^ fp.length))

/-- A form group without the error class, with an error message element. -/
def plainGroup : FormGroup := ⟨false, some ⟨"", "none"⟩⟩

/-- A page with eleven controls, each in a form group of its own: the business name is
blank, the quantity is not filled in, and the due date is earlier than the invoice
date. -/
def samplePage : Document where
  fields :=
    [⟨"businessName", "text", true, none, "  ", false, 0⟩,
     ⟨"currency", "select-one", false, none, "$", false, 1⟩,
     ⟨"invoiceNumber", "text", true, none, "INV-7", false, 2⟩,
     ⟨"clientName", "text", true, none, "Ada  Lovelace", false, 3⟩,
     ⟨"invoiceDate", "date", true, none, "2024-01-10", false, 4⟩,
     ⟨"dueDate", "date", true, none, "2024-01-05", false, 5⟩,
     ⟨"serviceDescription", "textarea", true, none, "Consulting", false, 6⟩,
     ⟨"quantity", "number", true, some "0", "", false, 7⟩,
     ⟨"rate", "number", true, some "0", "150", false, 8⟩,
     ⟨"taxRate", "number", false, some "0", "8", false, 9⟩,
     ⟨"additionalNotes", "textarea", false, none, "", false, 10⟩,
     ⟨"watermark", "checkbox", false, none, "on", false, 11⟩]
  groups := fun _ => plainGroup

/-! ## Totals -/

/-- The object `calculateTotals` returns. -/
structure Totals where
  subtotal : ℚ
  tax : ℚ
  total : ℚ
  deriving DecidableEq

/-- Modelled from the spec: the function `calculateTotals`, which `script.js` calls in
`generatePDF` and exports but does not define. The spec gives subtotal = quantity × rate,
tax = subtotal × taxRatePercent / 100 and total = subtotal + tax, rounded only at display
time. Numbers are exact rationals here; the rounding of double arithmetic is not
modelled. -/
def calculateTotals (quantity rate taxRate : ℚ) : Totals :=
  let subtotal := quantity * rate
  let tax := subtotal * taxRate / 100
  let total := subtotal + tax
  { subtotal := subtotal, tax := tax, total := total }

/-! ## Logo upload -/

/-- A file of the file picker: its MIME type and its size in bytes. -/
structure File where
  type : String
  size : Nat
  deriving DecidableEq, Repr

/-- What the logo handlers read and write: the module variable `logoDataUrl`, the value
of the file input, the preview image and its container, and the alerts shown. -/
structure LogoState where
  logoDataUrl : Option String
  inputValue : String
  previewSrc : String
  previewDisplay : String
  alerts : List String
  deriving DecidableEq, Repr

/-- The `change` listener that `handleLogoUpload` puts on the logo input, run with
`e.target.files[0]`. The second component is the file handed to
`reader.readAsDataURL`, when the listener starts a read. -/
def logoChangeListener (st : LogoState) (file : Option File) : LogoState × Option File :=
  match file with
  | some file =>
    -- Validate file type
    if !startsWith file.type "image/" then
      ({ st with alerts := st.alerts ++ ["Please upload a valid image file"], inputValue := "" },
        none)
    -- Validate file size (max 2MB)
    else if file.size > 2 * 1024 * 1024 then
      ({ st with alerts := st.alerts ++ ["Image size should be less than 2MB"],
                 inputValue := "" }, none)
    else (st, some file)
  | none => ({ st with previewDisplay := "none", logoDataUrl := none }, none)

/-- The `reader.onload` callback, run with `event.target.result`. -/
def readerOnload (st : LogoState) (result : String) : LogoState :=
  { st with logoDataUrl := some result, previewSrc := result, previewDisplay := "block" }

/-! ## Templates -/

/-- The record under the key `invoiceTemplate`, as `JSON.parse` reads it: a field is
`none` when the record lacks it or holds `null`. -/
structure Template where
  businessName : Option String
  currency : Option String
  taxRate : Option String
  additionalNotes : Option String
  logoDataUrl : Option String
  savedAt : Option String
  deriving DecidableEq, Repr

/-- What `localStorage.getItem('invoiceTemplate')` holds: nothing, a text that
`JSON.parse` rejects, or a text that parses to a record. `JSON.stringify` followed by
`JSON.parse` gives back a record of strings and `null` as it was, so a stored text is
represented by the record it parses to. -/
inductive StoredItem where
  | absent
  | unparsable
  | record (t : Template)
  deriving DecidableEq, Repr

/-- What the template functions read and write: the values of the four form fields, the
module variable `logoDataUrl`, the preview, the storage slot, the alerts and the
console. -/
structure TemplateState where
  businessName : String
  currency : String
  taxRate : String
  additionalNotes : String
  logoDataUrl : Option String
  previewSrc : String
  previewDisplay : String
  storage : StoredItem
  alerts : List String
  console : List String
  deriving DecidableEq, Repr

/-- The expression `v || d` for a field `v` of the parsed record: `d` when the field is
missing, `null` or the empty string. -/
def orDefault (v : Option String) (d : String) : String :=
  match v with
  | some s => if truthy s then s else d
  | none => d

/-- The function `saveTemplate`. `now` is `new Date().toISOString()`; `setItemRaises`
says whether `localStorage.setItem` raises (a full store). -/
def saveTemplate (st : TemplateState) (now : String) (setItemRaises : Bool) : TemplateState :=
  let template : Template :=
    { businessName := some st.businessName
      currency := some st.currency
      taxRate := some st.taxRate
      additionalNotes := some st.additionalNotes
      logoDataUrl := st.logoDataUrl
      savedAt := some now }
  if setItemRaises then
    { st with console := st.console ++ ["Error saving template:"],
              alerts := st.alerts ++ ["Error saving template. Please try again."] }
  else
    { st with storage := StoredItem.record template,
              alerts := st.alerts ++ ["✅ Template saved successfully!"],
              console := st.console ++ ["Template saved:"] }

/-- The function `loadTemplate`. The call of `updateTotalsDisplay`, a function of
another file that redraws the totals, comes after the assignments and is left out. -/
def loadTemplate (st : TemplateState) : TemplateState :=
  match st.storage with
  | StoredItem.absent => st
  | StoredItem.unparsable => { st with console := st.console ++ ["Error loading template:"] }
  | StoredItem.record template =>
    -- Populate form fields
    let st := { st with
      businessName := orDefault template.businessName ""
      currency := orDefault template.currency "$"
      taxRate := orDefault template.taxRate "0"
      additionalNotes := orDefault template.additionalNotes "" }
    -- Load logo if exists
    let st := match template.logoDataUrl with
      | some url =>
        if truthy url then
          { st with logoDataUrl := some url, previewSrc := url, previewDisplay := "block" }
        else st
      | none => st
    { st with console := st.console ++ ["Template loaded successfully"] }

/-! ## The file name -/

/-- The scan behind `s.replace(/\s+/g, '_')`: `inRun` says that the character before
was white space, so that the run it belongs to has its underscore already. -/
def replaceRuns : Bool → List Char → List Char
  | _, [] => []
  | inRun, c :: cs =>
    if isJsWhitespace c then
      if inRun then replaceRuns true cs else '_' :: replaceRuns true cs
    else c :: replaceRuns false cs

/-- The method call `s.replace(/\s+/g, '_')` on the characters of `s`: every maximal
run of white space becomes one underscore. -/
def replaceWhitespaceRuns (cs : List Char) : List Char := replaceRuns false cs

/-- The template literal of `generatePDF` that names the file. -/
def fileName (invoiceNumber clientName : String) : String :=
  "Invoice_" ++ invoiceNumber ++ "_" ++ String.mk (replaceWhitespaceRuns clientName.data)
    ++ ".pdf"

/-- The client part of the file name as the specification words it: each space
character replaced by one underscore. -/
def eachSpaceReplaced (cs : List Char) : List Char :=
  cs.map (fun c => if c = ' ' then '_' else c)

/-! ## The PDF -/

/-- The pieces of text `generatePDF` writes. -/
inductive Item where
  | businessName | invoiceTitle | invoiceNumber | invoiceDate | dueDate | billTo | clientName
  | headDescription | headQty | headRate | headAmount
  | description | quantity | rate | amount
  | subtotalLabel | subtotal | taxLabel | tax | totalLabel | total
  | notesLabel | notes | watermark | thanks | generatedOn
  deriving DecidableEq, Repr

/-- A call on the jsPDF collaborator. Coordinates and sizes are the integers of the
source; `setLineWidth` carries tenths (the source passes 0.5). -/
inductive Call where
  | create
  | addImage (data : String) (x y w h : Nat)
  | setFontSize (size : Nat)
  | setFont (style : String)
  | setTextColor (r g b : Nat)
  | setFillColor (r g b : Nat)
  | setDrawColor (r g b : Nat)
  | setLineWidth (tenths : Nat)
  | rect (x y w h : Nat)
  | line (x1 y1 x2 y2 : Nat)
  | splitTextToSize (item : Item) (width : Nat)
  | text (item : Item) (x y : Nat)
  | save (fileName : String)
  deriving DecidableEq, Repr

namespace Call

/-- The call is `doc.addImage`. -/
def isAddImage : Call → Bool
  | addImage _ _ _ _ _ => true
  | _ => false

/-- The call is `doc.save`. -/
def isSave : Call → Bool
  | save _ => true
  | _ => false

end Call

/-- The values `generatePDF` reads from the form. -/
structure InvoiceInput where
  businessName : String
  currency : String
  invoiceNumber : String
  clientName : String
  invoiceDate : String
  dueDate : String
  serviceDescription : String
  quantity : JSNum
  rate : JSNum
  taxRate : JSNum
  additionalNotes : String
  addWatermark : Bool

/-- The block `// Get form values` of `generatePDF`; `none` when an element is missing,
where the source raises a `TypeError`. -/
def readInputs (parseFloat : String → JSNum) (doc : Document) : Option InvoiceInput := do
  let businessName ← doc.getElementById "businessName"
  let currency ← doc.getElementById "currency"
  let invoiceNumber ← doc.getElementById "invoiceNumber"
  let clientName ← doc.getElementById "clientName"
  let invoiceDate ← doc.getElementById "invoiceDate"
  let dueDate ← doc.getElementById "dueDate"
  let serviceDescription ← doc.getElementById "serviceDescription"
  let quantity ← doc.getElementById "quantity"
  let rate ← doc.getElementById "rate"
  let taxRate ← doc.getElementById "taxRate"
  let additionalNotes ← doc.getElementById "additionalNotes"
  let addWatermark ← doc.getElementById "watermark"
  pure
    { businessName := businessName.value
      currency := currency.value
      invoiceNumber := invoiceNumber.value
      clientName := clientName.value
      invoiceDate := invoiceDate.value
      dueDate := dueDate.value
      serviceDescription := serviceDescription.value
      quantity := parseFloat quantity.value
      rate := parseFloat rate.value
      taxRate := parseFloat taxRate.value
      additionalNotes := additionalNotes.value
      addWatermark := addWatermark.checked }

/-- The layout in progress: the cursor `yPosition`, the collaborator calls made so far,
and the values `yPosition` has had, in order. -/
structure Pen where
  y : Nat
  calls : List Call
  trace : List Nat
  deriving DecidableEq, Repr

namespace Pen

/-- The statement `let yPosition = 20`. -/
def start : Pen := ⟨20, [], [20]⟩

/-- A collaborator call that does not use the cursor. -/
def call : Pen → Call → Pen
  | ⟨y, calls, trace⟩, c => ⟨y, calls ++ [c], trace⟩

/-- A collaborator call at the cursor. -/
def draw : Pen → (Nat → Call) → Pen
  | ⟨y, calls, trace⟩, c => ⟨y, calls ++ [c y], trace⟩

/-- The statement `yPosition += k`. -/
def advance : Pen → Nat → Pen
  | ⟨y, calls, trace⟩, k => ⟨y + k, calls, trace ++ [y + k]⟩

end Pen

/-- The block `// Add logo if uploaded`: nothing without a logo; with one, the
`addImage` call and, unless that call raised, the advance by 25. -/
def logoStep (logoDataUrl : Option String) (addImageRaises : Bool) (p : Pen) : Pen :=
  match logoDataUrl with
  | some url =>
    if truthy url then
      let p := p.draw (fun y => Call.addImage url 15 y 40 20)
      if addImageRaises then p else p.advance 25
    else p
  | none => p

/-- A statement of the layout: a collaborator call that does not use the cursor, a
collaborator call at the cursor, or `yPosition += k`. -/
inductive Step where
  | call (c : Call)
  | draw (c : Nat → Call)
  | advance (k : Nat)

/-- Runs one statement of the layout. -/
def Pen.step (p : Pen) : Step → Pen
  | Step.call c => p.call c
  | Step.draw c => p.draw c
  | Step.advance k => p.advance k

/-- Runs statements of the layout in order. -/
def Pen.run : Pen → List Step → Pen
  | p, [] => p
  | p, s :: rest => Pen.run (p.step s) rest

/-- The drawing statements of `generatePDF` from the business name to the footer, given
what the two tests of the block evaluate to (`additionalNotes.trim()` and `addWatermark`)
and the two computed advances: `rowHeight` is `Math.max(descriptionHeight, 10)` and
`notesHeight` is `splitNotes.length * 5`. -/
def invoiceSteps (withNotes addWatermark : Bool) (rowHeight notesHeight : Nat) : List Step :=
  [
  -- Business Name (Header)
  Step.call (Call.setFontSize 24),
  Step.call (Call.setTextColor 102 126 234),
  Step.draw (fun y => Call.text Item.businessName 15 y),
  Step.advance 10,
  -- Invoice Title
  Step.call (Call.setFontSize 16),
  Step.call (Call.setTextColor 0 0 0),
  Step.draw (fun y => Call.text Item.invoiceTitle 15 y),
  Step.advance 15,
  -- Invoice Details Box
  Step.call (Call.setFontSize 10),
  Step.call (Call.setTextColor 100 100 100),
  Step.draw (fun y => Call.text Item.invoiceNumber 15 y),
  Step.advance 6,
  Step.draw (fun y => Call.text Item.invoiceDate 15 y),
  Step.advance 6,
  Step.draw (fun y => Call.text Item.dueDate 15 y),
  Step.advance 15,
  -- Bill To Section
  Step.call (Call.setFontSize 12),
  Step.call (Call.setTextColor 0 0 0),
  Step.draw (fun y => Call.text Item.billTo 15 y),
  Step.advance 7,
  Step.call (Call.setFontSize 11),
  Step.draw (fun y => Call.text Item.clientName 15 y),
  Step.advance 20,
  -- Service Details Table Header
  Step.call (Call.setFillColor 102 126 234),
  Step.draw (fun y => Call.rect 15 y 180 10),
  Step.call (Call.setTextColor 255 255 255),
  Step.call (Call.setFontSize 10),
  Step.draw (fun y => Call.text Item.headDescription 20 (y + 7)),
  Step.draw (fun y => Call.text Item.headQty 120 (y + 7)),
  Step.draw (fun y => Call.text Item.headRate 145 (y + 7)),
  Step.draw (fun y => Call.text Item.headAmount 170 (y + 7)),
  Step.advance 15,
  -- Service Details Row
  Step.call (Call.setTextColor 0 0 0),
  Step.call (Call.setFontSize 9),
  Step.call (Call.splitTextToSize Item.description 95),
  Step.draw (fun y => Call.text Item.description 20 y),
  Step.draw (fun y => Call.text Item.quantity 120 y),
  Step.draw (fun y => Call.text Item.rate 145 y),
  Step.draw (fun y => Call.text Item.amount 170 y),
  Step.advance rowHeight,
  -- Draw line
  Step.call (Call.setDrawColor 200 200 200),
  Step.draw (fun y => Call.line 15 y 195 y),
  Step.advance 10,
  -- Totals Section
  Step.call (Call.setFontSize 10),
  Step.draw (fun y => Call.text Item.subtotalLabel 145 y),
  Step.draw (fun y => Call.text Item.subtotal 170 y),
  Step.advance 7,
  Step.draw (fun y => Call.text Item.taxLabel 145 y),
  Step.draw (fun y => Call.text Item.tax 170 y),
  Step.advance 10,
  -- Draw line before total
  Step.call (Call.setLineWidth 5),
  Step.draw (fun y => Call.line 145 y 195 y),
  Step.advance 7,
  -- Total
  Step.call (Call.setFontSize 12),
  Step.call (Call.setFont "bold"),
  Step.draw (fun y => Call.text Item.totalLabel 145 y),
  Step.draw (fun y => Call.text Item.total 170 y),
  Step.advance 15] ++
  -- Additional Notes
  (if withNotes then
     [
      Step.call (Call.setFont "normal"),
      Step.call (Call.setFontSize 10),
      Step.call (Call.setTextColor 100 100 100),
      Step.draw (fun y => Call.text Item.notesLabel 15 y),
      Step.advance 7,
      Step.call (Call.setFontSize 9),
      Step.call (Call.splitTextToSize Item.notes 180),
      Step.draw (fun y => Call.text Item.notes 15 y),
      Step.advance notesHeight]
   else []) ++
  -- Add watermark if checked
  (if addWatermark then
     [
      Step.call (Call.setFontSize 60),
      Step.call (Call.setTextColor 200 200 200),
      Step.call (Call.text Item.watermark 105 150)]
   else []) ++
  -- Footer
  [
  Step.call (Call.setFontSize 8),
  Step.call (Call.setTextColor 150 150 150),
  Step.call (Call.text Item.thanks 105 280),
  Step.call (Call.text Item.generatedOn 105 285)]

/-- The drawing statements of `generatePDF` from the business name to the footer, run
from the pen `p`. `d` and `n` are the numbers of lines `splitTextToSize` returns for the
description and for the notes. -/
def drawInvoice (inp : InvoiceInput) (d n : Nat) (p : Pen) : Pen :=
  let descriptionHeight := d * 5
  p.run (invoiceSteps (truthy (jsTrim inp.additionalNotes)) inp.addWatermark
    (max descriptionHeight 10) (n * 5))

/-- The amounts the statements `yPosition += k` of a list of statements add. -/
def advancesOf : List Step → List Nat
  | [] => []
  | Step.advance k :: rest => k :: advancesOf rest
  | _ :: rest => advancesOf rest

/-- The collaborator calls a list of statements makes from the cursor value `y`. -/
def callsFrom : Nat → List Step → List Call
  | _, [] => []
  | y, Step.call c :: rest => c :: callsFrom y rest
  | y, Step.draw c :: rest => c y :: callsFrom y rest
  | y, Step.advance k :: rest => callsFrom (y + k) rest

/-- The whole layout of `generatePDF` when no call other than `addImage` raises. -/
def layout (inp : InvoiceInput) (logoDataUrl : Option String) (addImageRaises : Bool)
    (d n : Nat) : Pen :=
  drawInvoice inp d n (logoStep logoDataUrl addImageRaises Pen.start)

/-- The amounts the statements `yPosition += ...` add, in order: 25 after a logo that
was drawn, fourteen amounts from the header to the total, and two more under notes. -/
def advances (logoDrawn : Bool) (d : Nat) (withNotes : Bool) (n : Nat) : List Nat :=
  (if logoDrawn then [25] else []) ++
    [10, 15, 6, 6, 15, 7, 20, 15, max (d * 5) 10, 10, 7, 10, 7, 15] ++
    (if withNotes then [7, n * 5] else [])

/-- The vertical positions of the blocks in drawing order, when the header is drawn at
`b` and the line-item row advances the cursor by `m`: header, title, three lines of invoice
data, bill-to label and client, table band and its four captions, the four cells of the
row, the rule, the subtotal and tax pairs, the rule, the total pair, and the notes label
and notes when there are notes. -/
def blockPositions (b m : Nat) (withNotes : Bool) : List Nat :=
  [b, b + 10, b + 25, b + 31, b + 37, b + 52, b + 59, b + 79,
    b + 86, b + 86, b + 86, b + 86, b + 94, b + 94, b + 94, b + 94,
    b + 94 + m, b + 94 + m + 10, b + 94 + m + 10, b + 94 + m + 17, b + 94 + m + 17,
    b + 94 + m + 27, b + 94 + m + 34, b + 94 + m + 34] ++
  (if withNotes then [b + 94 + m + 49, b + 94 + m + 56] else [])

/-- The vertical position of a call that draws one of the blocks from the logo to the
notes; the watermark and the footer, which sit at fixed places, have none. -/
def blockY : Call → Option Nat
  | Call.addImage _ _ y _ _ => some y
  | Call.rect _ y _ _ => some y
  | Call.line _ y _ _ => some y
  | Call.text item _ y =>
    if item = Item.watermark ∨ item = Item.thanks ∨ item = Item.generatedOn then none
    else some y
  | _ => none

/-- Runs collaborator calls in order, the first at index `k` of the oracle `raises`,
and stops at the first one that raises. Each attempted call comes with whether it
raised. -/
def runCalls (raises : Nat → Bool) : Nat → List Call → List (Call × Bool)
  | _, [] => []
  | k, c :: cs =>
    if raises k then [(c, true)] else (c, false) :: runCalls raises (k + 1) cs

/-- What the `try` block of `generatePDF` did: the collaborator calls it attempted,
each with whether it raised, the lines it sent to `console.error`, and whether control
reached the outer `catch`. -/
structure TryResult where
  attempted : List (Call × Bool)
  consoleErrors : List String
  raised : Bool
  deriving DecidableEq, Repr

/-- The `try` block of `generatePDF`. Call number `i` of the collaborator raises when
`raises i` holds; the first call is `new jsPDF()`. The calls of `calculateTotals` and
`formatCurrency`, functions of another file, and the date formatting only make the text
of items and are not represented. -/
def tryBlock (parseFloat : String → JSNum) (raises : Nat → Bool) (d n : Nat) (doc : Document)
    (logoDataUrl : Option String) : TryResult :=
  if raises 0 then ⟨[(Call.create, true)], [], true⟩
  else
    match readInputs parseFloat doc with
    | none => ⟨[(Call.create, false)], [], true⟩
    | some inp =>
      -- Add logo if uploaded: the inner try and catch
      let p1 := logoStep logoDataUrl (raises 1) Pen.start
      let logoCalls := p1.calls.map (fun c => (c, raises 1))
      let logoErrors := if logoCalls.any (fun c => c.2) then ["Error adding logo:"] else []
      let pre := (Call.create, false) :: logoCalls
      let p2 := layout inp logoDataUrl (raises 1) d n
      let run := runCalls raises pre.length (p2.calls.drop p1.calls.length)
      if run.any (fun c => c.2) then ⟨pre ++ run, logoErrors, true⟩
      else
        -- Save PDF
        let saveRaises := raises (pre.length + run.length)
        ⟨pre ++ run ++ [(Call.save (fileName inp.invoiceNumber inp.clientName), saveRaises)],
          logoErrors, saveRaises⟩

/-- The page state `generatePDF` works on: the form, the module variable
`logoDataUrl`, and the generate button. -/
structure App where
  doc : Document
  logoDataUrl : Option String
  buttonDisabled : Bool
  buttonText : String

/-- What a run of `generatePDF` leaves: the page, the collaborator calls attempted, the
alerts shown, the lines sent to `console.error`, and whether an exception left the
function (one raised by `validateForm`, outside the `try` block). -/
structure Outcome where
  app : App
  attempted : List (Call × Bool)
  alerts : List String
  consoleErrors : List String
  uncaught : Bool

/-- The function `generatePDF`. -/
def generatePDF (parseFloat : String → JSNum) (raises : Nat → Bool) (d n : Nat) (app : App) :
    Outcome :=
  -- Validate form first
  match validateForm parseFloat app.doc with
  | none => ⟨app, [], [], [], true⟩
  | some (false, doc) =>
    ⟨{ app with doc := doc }, [], ["Please fill in all required fields correctly"], [], false⟩
  | some (true, doc) =>
    let r := tryBlock parseFloat raises d n doc app.logoDataUrl
    -- finally: re-enable button
    let app := { app with doc := doc, buttonDisabled := false }
    if r.raised then
      ⟨app, r.attempted, ["Error generating PDF. Please try again."],
        r.consoleErrors ++ ["Error generating PDF:"], false⟩
    else ⟨app, r.attempted, [], r.consoleErrors, false⟩

/-- A page whose blank business name and filled-in client name sit in one form group
(number 0); the two dates are in order. -/
def sharedGroupPage : Document where
  fields :=
    [⟨"businessName", "text", true, none, "", false, 0⟩,
     ⟨"clientName", "text", true, none, "Ada Lovelace", false, 0⟩,
     ⟨"invoiceDate", "date", true, none, "2024-01-10", false, 1⟩,
     ⟨"dueDate", "date", true, none, "2024-02-09", false, 2⟩]
  groups := fun _ => plainGroup

/-- A page that passes validation: the sample page with a business name, a quantity, a
due date after the invoice date, and a note. -/
def validPage : Document where
  fields :=
    [⟨"businessName", "text", true, none, "Acme", false, 0⟩,
     ⟨"currency", "select-one", false, none, "$", false, 1⟩,
     ⟨"invoiceNumber", "text", true, none, "INV-7", false, 2⟩,
     ⟨"clientName", "text", true, none, "Ada  Lovelace", false, 3⟩,
     ⟨"invoiceDate", "date", true, none, "2024-01-10", false, 4⟩,
     ⟨"dueDate", "date", true, none, "2024-02-09", false, 5⟩,
     ⟨"serviceDescription", "textarea", true, none, "Consulting", false, 6⟩,
     ⟨"quantity", "number", true, some "0", "3", false, 7⟩,
     ⟨"rate", "number", true, some "0", "150", false, 8⟩,
     ⟨"taxRate", "number", false, some "0", "8", false, 9⟩,
     ⟨"additionalNotes", "textarea", false, none, "Net 30", false, 10⟩,
     ⟨"watermark", "checkbox", false, none, "on", true, 11⟩]
  groups := fun _ => plainGroup

/-- The valid page with a logo uploaded. -/
def validApp : App := ⟨validPage, some "data:image/png;base64,AAAA", false, "Generate PDF"⟩

/-- A form whose tax rate field is empty, with nothing stored yet. -/
def blankTaxForm : TemplateState :=
  { businessName := "Acme", currency := "€", taxRate := "", additionalNotes := "Net 30",
    logoDataUrl := some "data:image/png;base64,AAAA", previewSrc := "", previewDisplay := "none",
    storage := StoredItem.absent, alerts := [], console := [] }

/-- The logo state of a fresh page with a file picked. -/
def freshLogoState : LogoState :=
  { logoDataUrl := none, inputValue := "logo.png", previewSrc := "", previewDisplay := "none",
    alerts := [] }

/-! # Theorems -/

/-! ## Validation: what a `validateField` call reads and writes -/

theorem showMessage_fields (doc : Document) (g : Nat) (t : String) :
    (doc.showMessage g t).fields = doc.fields := by
  unfold Document.showMessage
  split <;> rfl

theorem showMessage_error (doc : Document) (g : Nat) (t : String) (i : Nat) :
    ((doc.showMessage g t).groups i).error = (doc.groups i).error := by
  unfold Document.showMessage
  split
  · simp only [Document.setGroup]
    split
    · subst_vars; rfl
    · rfl
  · rfl

theorem showMessage_other (doc : Document) (g : Nat) (t : String) (i : Nat) (h : i ≠ g) :
    (doc.showMessage g t).groups i = doc.groups i := by
  unfold Document.showMessage
  split
  · simp [Document.setGroup, h]
  · rfl

theorem getElementById_removeError (doc : Document) (g : Nat) (id : String) :
    (doc.removeError g).getElementById id = doc.getElementById id := rfl

/-- The returned boolean of `validateField`, rule by rule. -/
theorem verdict_eq (pf : String → JSNum) (doc : Document) (f : Field) :
    verdict pf doc f =
      if requiredEmpty f then some false
      else if numberInvalid pf f then some false
      else if f.type == "date" then
        match doc.getElementById "invoiceDate", doc.getElementById "dueDate" with
        | some inv, some due =>
          some (!(f.id == "dueDate" && (newDate due.value).lt (newDate inv.value)))
        | _, _ => none
      else some true := by
  unfold verdict validateField
  simp only [getElementById_removeError]
  by_cases h1 : requiredEmpty f = true
  · simp [h1]
  · by_cases h2 : numberInvalid pf f = true
    · simp [h1, h2]
    · by_cases h3 : (f.type == "date") = true
      · simp only [h1, h2, h3, if_true, if_false, Bool.false_eq_true]
        cases doc.getElementById "invoiceDate" with
        | none => rfl
        | some inv =>
          cases doc.getElementById "dueDate" with
          | none => rfl
          | some due =>
            simp only []
            by_cases h4 : (f.id == "dueDate" && (newDate due.value).lt (newDate inv.value)) = true
            · simp [h4]
            · simp [h4]
      · simp [h1, h2, h3]

/-- What `validateField` returns depends on the controls only, not on the form
groups. -/
theorem verdict_congr (pf : String → JSNum) (doc1 doc2 : Document) (f : Field)
    (h : doc1.fields = doc2.fields) : verdict pf doc1 f = verdict pf doc2 f := by
  rw [verdict_eq, verdict_eq]
  simp only [Document.getElementById, h]

/-- A `validateField` call leaves the controls as they are, sets the `error` class of
the field's own form group to the negation of what it returns, and touches no other
form group. -/
theorem validateField_effect (pf : String → JSNum) (doc : Document) (f : Field) (b : Bool)
    (doc1 : Document) (h : validateField pf doc f = some (b, doc1)) :
    doc1.fields = doc.fields ∧ (doc1.groups f.group).error = !b ∧
      ∀ i, i ≠ f.group → doc1.groups i = doc.groups i := by
  have hadd : ∀ d : Document, (((d.removeError f.group).addError f.group).groups f.group).error
      = true := by
    intro d; simp [Document.addError, Document.setGroup]
  have hrem : ∀ d : Document, ((d.removeError f.group).groups f.group).error = false := by
    intro d; simp [Document.removeError, Document.setGroup]
  have hoadd : ∀ (d : Document) (i : Nat), i ≠ f.group →
      ((d.removeError f.group).addError f.group).groups i = d.groups i := by
    intro d i hi; simp [Document.addError, Document.removeError, Document.setGroup, hi]
  have horem : ∀ (d : Document) (i : Nat), i ≠ f.group →
      (d.removeError f.group).groups i = d.groups i := by
    intro d i hi; simp [Document.removeError, Document.setGroup, hi]
  unfold validateField at h
  simp only [getElementById_removeError] at h
  by_cases h1 : requiredEmpty f = true
  · simp only [h1, if_true, Option.some.injEq, Prod.mk.injEq] at h
    obtain ⟨rfl, rfl⟩ := h
    exact ⟨rfl, by simpa using hadd doc, hoadd doc⟩
  · by_cases h2 : numberInvalid pf f = true
    · simp only [h1, h2, if_true, if_false, Option.some.injEq, Prod.mk.injEq] at h
      obtain ⟨rfl, rfl⟩ := h
      exact ⟨rfl, by simpa using hadd doc, hoadd doc⟩
    · by_cases h3 : (f.type == "date") = true
      · simp only [h1, h2, h3, if_true, if_false] at h
        cases hi : doc.getElementById "invoiceDate" with
        | none => simp [hi] at h
        | some inv =>
          cases hd : doc.getElementById "dueDate" with
          | none => simp [hi, hd] at h
          | some due =>
            simp only [hi, hd] at h
            by_cases h4 : (f.id == "dueDate" && (newDate due.value).lt (newDate inv.value)) = true
            · simp only [h4, if_true, Option.some.injEq, Prod.mk.injEq] at h
              obtain ⟨rfl, rfl⟩ := h
              refine ⟨by rw [showMessage_fields]; rfl, ?_, ?_⟩
              · rw [showMessage_error]; simpa using hadd doc
              · intro i hne
                rw [showMessage_other _ _ _ _ hne]
                exact hoadd doc i hne
            · simp only [h4, if_false, Option.some.injEq, Prod.mk.injEq] at h
              obtain ⟨rfl, rfl⟩ := h
              exact ⟨rfl, by simpa using hrem doc, horem doc⟩
      · simp only [h1, h2, h3, if_false, Option.some.injEq, Prod.mk.injEq] at h
        obtain ⟨rfl, rfl⟩ := h
        exact ⟨rfl, by simpa using hrem doc, horem doc⟩

/-! ## Validation: the whole form -/

theorem verdict_isSome_iff (pf : String → JSNum) (doc : Document) (f : Field) :
    (verdict pf doc f).isSome = (validateField pf doc f).isSome := by
  unfold verdict
  cases validateField pf doc f <;> rfl

/-- A date field aside, `validateField` never raises; on a page with both date
elements it never raises at all. -/
theorem verdict_isSome_of_hasDateElements (pf : String → JSNum) (doc : Document) (f : Field)
    (h : doc.hasDateElements = true) : (verdict pf doc f).isSome = true := by
  rw [verdict_eq]
  unfold Document.hasDateElements at h
  simp only [Bool.and_eq_true] at h
  obtain ⟨hi, hd⟩ := h
  obtain ⟨inv, hinv⟩ := Option.isSome_iff_exists.mp hi
  obtain ⟨due, hdue⟩ := Option.isSome_iff_exists.mp hd
  simp only [hinv, hdue]
  split
  · rfl
  · split
    · rfl
    · split <;> rfl

/-- The `forEach` of `validateForm`, when it runs to its end: the flag is the
conjunction of the flag it started from and of what `validateField` returns for every
field of the list, no call raised, the controls are unchanged, a form group of no listed
field is untouched, and the `error` class of the form group of a listed field is the
negation of what the last listed field of that group returned. -/
theorem validateAll_some (pf : String → JSNum) :
    ∀ (fs : List Field) (acc r : Bool × Document), validateAll pf fs acc = some r →
      r.1 = (acc.1 && fs.all (fun f => verdict pf acc.2 f == some true)) ∧
      (∀ f ∈ fs, (verdict pf acc.2 f).isSome = true) ∧
      r.2.fields = acc.2.fields ∧
      (∀ i, (∀ f ∈ fs, f.group ≠ i) → r.2.groups i = acc.2.groups i) ∧
      (fs.Pairwise (fun a b => a.group ≠ b.group) →
        ∀ f ∈ fs, verdict pf acc.2 f = some (!(r.2.groups f.group).error)) := by
  intro fs
  induction fs with
  | nil =>
    intro acc r h
    simp only [validateAll, Option.some.injEq] at h
    subst h
    simp
  | cons f fs ih =>
    intro acc r h
    unfold validateAll validateStep at h
    cases hv : validateField pf acc.2 f with
    | none => simp [hv] at h
    | some res =>
      obtain ⟨ok, doc1⟩ := res
      simp only [hv] at h
      obtain ⟨hf, herr, hoth⟩ := validateField_effect pf acc.2 f ok doc1 hv
      obtain ⟨h1, h2, h3, h4, h5⟩ := ih _ r h
      simp only [] at h1 h2 h3 h4 h5
      have hver : verdict pf acc.2 f = some ok := by simp [verdict, hv]
      have hcongr : ∀ x, verdict pf doc1 x = verdict pf acc.2 x :=
        fun x => verdict_congr pf doc1 acc.2 x hf
      refine ⟨?_, ?_, ?_, ?_, ?_⟩
      · rw [h1]
        simp only [List.all_cons, hver, hcongr]
        cases ok <;> cases acc.1 <;> simp
      · intro x hx
        rcases List.mem_cons.mp hx with rfl | hx
        · simp [hver]
        · rw [← hcongr]; exact h2 x hx
      · rw [h3, hf]
      · intro i hi
        rw [h4 i (fun x hx => hi x (List.mem_cons_of_mem _ hx))]
        exact hoth i (fun e => hi f (List.mem_cons_self _ _) e.symm)
      · intro hp x hx
        rw [List.pairwise_cons] at hp
        rcases List.mem_cons.mp hx with rfl | hx
        · rw [hver, h4 x.group (fun y hy e => hp.1 y hy e.symm), herr]
          simp
        · rw [← hcongr]; exact h5 hp.2 x hx

/-- The `forEach` of `validateForm` runs to its end when no call raises. -/
theorem validateAll_isSome (pf : String → JSNum) :
    ∀ (fs : List Field) (acc : Bool × Document),
      (∀ f ∈ fs, (verdict pf acc.2 f).isSome = true) → (validateAll pf fs acc).isSome = true := by
  intro fs
  induction fs with
  | nil => intro acc _; rfl
  | cons f fs ih =>
    intro acc h
    unfold validateAll validateStep
    have hf := h f (List.mem_cons_self _ _)
    rw [verdict_isSome_iff] at hf
    obtain ⟨res, hres⟩ := Option.isSome_iff_exists.mp hf
    obtain ⟨ok, doc1⟩ := res
    simp only [hres]
    apply ih
    intro x hx
    have hfields := (validateField_effect pf acc.2 f ok doc1 hres).1
    simp only []
    rw [verdict_congr pf doc1 acc.2 x hfields]
    exact h x (List.mem_cons_of_mem _ hx)

/-- The `forEach` of `validateForm`, when it runs to its end: the `error` class of the
form group of a listed field that no later listed field shares is the negation of what
`validateField` returned for that field. -/
theorem validateAll_last (pf : String → JSNum) :
    ∀ (fs : List Field) (acc r : Bool × Document), validateAll pf fs acc = some r →
      ∀ (pre : List Field) (f : Field) (post : List Field), fs = pre ++ f :: post →
        (∀ g ∈ post, g.group ≠ f.group) →
        verdict pf acc.2 f = some (!(r.2.groups f.group).error) := by
  intro fs
  induction fs with
  | nil =>
    intro acc r _ pre f post hsplit _
    exact absurd hsplit (by simp)
  | cons x fs ih =>
    intro acc r h pre f post hsplit hpost
    unfold validateAll validateStep at h
    cases hv : validateField pf acc.2 x with
    | none => simp [hv] at h
    | some res =>
      obtain ⟨ok, doc1⟩ := res
      simp only [hv] at h
      obtain ⟨hf, herr, _⟩ := validateField_effect pf acc.2 x ok doc1 hv
      cases pre with
      | nil =>
        simp only [List.nil_append, List.cons.injEq] at hsplit
        obtain ⟨rfl, rfl⟩ := hsplit
        have hkeep := (validateAll_some pf _ _ r h).2.2.2.1 x.group hpost
        simp only [] at hkeep
        have hver : verdict pf acc.2 x = some ok := by simp [verdict, hv]
        rw [hver, hkeep, herr]
        simp
      | cons y pre1 =>
        simp only [List.cons_append, List.cons.injEq] at hsplit
        obtain ⟨_, rfl⟩ := hsplit
        have := ih _ r h pre1 f post rfl hpost
        simp only [] at this
        rw [← verdict_congr pf doc1 acc.2 f hf]
        exact this

theorem mem_requiredFields (doc : Document) (f : Field) :
    f ∈ requiredFields doc ↔ f ∈ doc.fields ∧ f.required = true := by
  simp [requiredFields]

/-- C2 as stated fails: on the page where the blank business name and the filled-in
client name share form group 0, `validateField` returns false for the business name and
`validateForm` returns false, yet form group 0 does not carry the error class
afterwards: the call for the client name removed it. -/
theorem validateForm_shared_group_counterexample :
    verdict parseFloatPlain sharedGroupPage ⟨"businessName", "text", true, none, "", false, 0⟩
      = some false ∧
    (validateForm parseFloatPlain sharedGroupPage).map Prod.fst = some false ∧
    (validateForm parseFloatPlain sharedGroupPage).map (fun r => (r.2.groups 0).error)
      = some false := by
  decide

/-- C2, amended. `validateForm` returns true exactly when `validateField` returns true
for every field of the form that carries `required`; it returns exactly when none of
these calls raises, so on every page with the two date elements. When it returns it has
run `validateField` on every required field, also after an earlier one failed: the
controls are unchanged, the form group of a required field that no later required field
shares carries the error class exactly when that field failed, and a form group of no
required field is untouched. So when no two required fields share a form group, every
failing required field is marked and every passing one is not. -/
theorem validateForm_required_fields (pf : String → JSNum) (doc : Document) :
    ((validateForm pf doc).map Prod.fst = some true ↔
        ∀ f ∈ doc.fields, f.required = true → verdict pf doc f = some true) ∧
    ((validateForm pf doc).isSome = true ↔
        ∀ f ∈ doc.fields, f.required = true → (verdict pf doc f).isSome = true) ∧
    (doc.hasDateElements = true → (validateForm pf doc).isSome = true) ∧
    (∀ b doc1, validateForm pf doc = some (b, doc1) →
      (b = true ↔ ∀ f ∈ doc.fields, f.required = true → verdict pf doc f = some true) ∧
      doc1.fields = doc.fields ∧
      (∀ pre f post, doc.fields = pre ++ f :: post → f.required = true →
        (∀ g ∈ post, g.required = true → g.group ≠ f.group) →
        verdict pf doc f = some (!(doc1.groups f.group).error)) ∧
      (doc.fields.Pairwise
          (fun a b => a.required = true → b.required = true → a.group ≠ b.group) →
        ∀ f ∈ doc.fields, f.required = true →
          verdict pf doc f = some (!(doc1.groups f.group).error)) ∧
      (∀ i, (∀ f ∈ doc.fields, f.required = true → f.group ≠ i) →
        doc1.groups i = doc.groups i)) := by
  have hflag : ∀ r, validateForm pf doc = some r →
      (r.1 = true ↔ ∀ f ∈ doc.fields, f.required = true → verdict pf doc f = some true) := by
    intro r hr
    have h := (validateAll_some pf _ _ r hr).1
    simp only [Bool.true_and] at h
    rw [h, List.all_eq_true]
    constructor
    · intro hall f hf hreq
      simpa using hall f ((mem_requiredFields doc f).mpr ⟨hf, hreq⟩)
    · intro hall f hf
      obtain ⟨hf1, hf2⟩ := (mem_requiredFields doc f).mp hf
      simpa using hall f hf1 hf2
  have hsome : (∀ f ∈ doc.fields, f.required = true → (verdict pf doc f).isSome = true) →
      (validateForm pf doc).isSome = true := by
    intro h
    apply validateAll_isSome
    intro f hf
    obtain ⟨hf1, hf2⟩ := (mem_requiredFields doc f).mp hf
    exact h f hf1 hf2
  have hlast : ∀ b doc1, validateForm pf doc = some (b, doc1) →
      ∀ pre f post, doc.fields = pre ++ f :: post → f.required = true →
        (∀ g ∈ post, g.required = true → g.group ≠ f.group) →
        verdict pf doc f = some (!(doc1.groups f.group).error) := by
    intro b doc1 hr pre f post hsplit hreq hpost
    have hsplit2 : requiredFields doc
        = pre.filter (fun f => f.required) ++ f :: post.filter (fun f => f.required) := by
      unfold requiredFields
      rw [hsplit, List.filter_append, List.filter_cons]
      simp [hreq]
    have := validateAll_last pf _ _ _ hr _ f _ hsplit2 (by
      intro g hg
      obtain ⟨hg1, hg2⟩ := List.mem_filter.mp hg
      exact hpost g hg1 (by simpa using hg2))
    exact this
  refine ⟨?_, ?_, ?_, ?_⟩
  · constructor
    · intro h
      cases hv : validateForm pf doc with
      | none => simp [hv] at h
      | some r =>
        rw [hv] at h
        simp only [Option.map_some', Option.some.injEq] at h
        exact (hflag r hv).mp h
    · intro h
      have hs : (validateForm pf doc).isSome = true :=
        hsome (fun f hf hreq => by rw [h f hf hreq]; rfl)
      obtain ⟨r, hr⟩ := Option.isSome_iff_exists.mp hs
      rw [hr]
      simp only [Option.map_some', Option.some.injEq]
      exact (hflag r hr).mpr h
  · constructor
    · intro h f hf hreq
      obtain ⟨r, hr⟩ := Option.isSome_iff_exists.mp h
      exact (validateAll_some pf _ _ r hr).2.1 f ((mem_requiredFields doc f).mpr ⟨hf, hreq⟩)
    · exact hsome
  · intro hdates
    exact hsome (fun f _ _ => verdict_isSome_of_hasDateElements pf doc f hdates)
  · intro b doc1 hr
    refine ⟨hflag _ hr, (validateAll_some pf _ _ _ hr).2.2.1, hlast b doc1 hr, ?_, ?_⟩
    · intro hpair f hf hreq
      obtain ⟨pre, post, hsplit⟩ := List.append_of_mem hf
      apply hlast b doc1 hr pre f post hsplit hreq
      intro g hg hgreq
      rw [hsplit] at hpair
      have h2 := (List.pairwise_append.mp hpair).2.1
      have h3 := (List.pairwise_cons.mp h2).1 g hg hreq hgreq
      exact fun e => h3 e.symm
    · intro i hi
      have := (validateAll_some pf _ _ _ hr).2.2.2.1 i (by
        intro f hf
        obtain ⟨hf1, hf2⟩ := (mem_requiredFields doc f).mp hf
        exact hi f hf1 hf2)
      exact this

/-- C2, amended, at the sample page, where each control has a form group of its own:
`validateForm` returns, and for every required field the form group carries the error
class afterwards exactly when `validateField` returned false for it; the business name,
the quantity and the due date fail there. -/
theorem validateForm_required_fields_witness :
    samplePage.hasDateElements = true ∧
    samplePage.fields.Pairwise
      (fun a b => a.required = true → b.required = true → a.group ≠ b.group) ∧
    (validateForm parseFloatPlain samplePage).isSome = true ∧
    ∀ b doc1, validateForm parseFloatPlain samplePage = some (b, doc1) →
      ∀ f ∈ samplePage.fields, f.required = true →
        verdict parseFloatPlain samplePage f = some (!(doc1.groups f.group).error) :=
  ⟨by decide, by decide,
    (validateForm_required_fields parseFloatPlain samplePage).2.2.1 (by decide),
    fun b doc1 h =>
      ((validateForm_required_fields parseFloatPlain samplePage).2.2.2 b doc1 h).2.2.2.1
        (by decide)⟩

/-- C3. A required field whose value is empty after trimming fails `validateField`,
whatever its type and whatever the rest of the page holds, and its form group gets the
error class; so `validateForm` never returns true on a page with such a field, and it
returns false on every such page that has the two date elements. -/
theorem required_empty_field_fails (pf : String → JSNum) (doc : Document) (f : Field)
    (hreq : f.required = true) (hempty : jsTrim f.value = "") :
    (∃ doc1, validateField pf doc f = some (false, doc1) ∧ (doc1.groups f.group).error = true) ∧
    (f ∈ doc.fields →
      (validateForm pf doc).map Prod.fst ≠ some true ∧
      (doc.hasDateElements = true → ∃ doc1, validateForm pf doc = some (false, doc1))) := by
  have hre : requiredEmpty f = true := by
    simp [requiredEmpty, hreq, hempty, truthy]
  have hver : ∀ d : Document, verdict pf d f = some false := by
    intro d; rw [verdict_eq]; simp [hre]
  constructor
  · refine ⟨(doc.removeError f.group).addError f.group, ?_, ?_⟩
    · simp [validateField, hre]
    · simp [Document.addError, Document.setGroup]
  · intro hmem
    have hmemr : f ∈ requiredFields doc := by
      simp [requiredFields, hmem, hreq]
    constructor
    · intro htrue
      cases hv : validateForm pf doc with
      | none => simp [hv] at htrue
      | some r =>
        have h := (validateAll_some pf _ _ r hv).1
        rw [hv] at htrue
        simp only [Option.map_some', Option.some.injEq] at htrue
        rw [htrue] at h
        simp only [Bool.true_and] at h
        have h2 := List.all_eq_true.mp h.symm f hmemr
        rw [hver] at h2
        simp at h2
    · intro hdates
      have hsome : (validateForm pf doc).isSome = true := by
        apply validateAll_isSome
        intro x _
        exact verdict_isSome_of_hasDateElements pf doc x hdates
      obtain ⟨r, hr⟩ := Option.isSome_iff_exists.mp hsome
      have h := (validateAll_some pf _ _ r hr).1
      simp only [Bool.true_and] at h
      have hfalse : r.1 = false := by
        rw [h]
        apply Bool.eq_false_iff.mpr
        intro hall
        have h2 := List.all_eq_true.mp hall f hmemr
        rw [hver] at h2
        simp at h2
      refine ⟨r.2, ?_⟩
      rw [hr, ← hfalse]

/-- C3 at the sample page, whose business name is two blanks. -/
theorem required_empty_field_fails_witness :
    (∃ doc1, validateField parseFloatPlain samplePage
        ⟨"businessName", "text", true, none, "  ", false, 0⟩ = some (false, doc1) ∧
      (doc1.groups 0).error = true) ∧
    ∃ doc1, validateForm parseFloatPlain samplePage = some (false, doc1) :=
  have h := required_empty_field_fails parseFloatPlain samplePage
    ⟨"businessName", "text", true, none, "  ", false, 0⟩ (by decide) (by decide)
  ⟨h.1, (h.2 (by decide)).2 (by decide)⟩

/-- C5. For a field of type `number` that the required rule does not reject,
`validateField` returns, and it returns false exactly when the value does not parse as
a number or the parsed value is below the parsed `min` attribute the field declares;
without a `min` attribute every value that parses passes. -/
theorem number_field_rule (pf : String → JSNum) (doc : Document) (f : Field)
    (htype : f.type = "number") (hreq : requiredEmpty f = false) :
    (verdict pf doc f = some false ∨ verdict pf doc f = some true) ∧
    (verdict pf doc f = some false ↔
      ((pf f.value).isNaN = true ∨ ∃ m, f.min = some m ∧ (pf f.value).lt (pf m) = true)) ∧
    (f.min = none → (pf f.value).isNaN = false → verdict pf doc f = some true) := by
  have hdate : (f.type == "date") = false := by rw [htype]; decide
  have hnum : (f.type == "number") = true := by rw [htype]; decide
  have hv : verdict pf doc f = if numberInvalid pf f then some false else some true := by
    rw [verdict_eq]; simp [hreq, hdate]
  have hni : numberInvalid pf f = true ↔
      ((pf f.value).isNaN = true ∨ ∃ m, f.min = some m ∧ (pf f.value).lt (pf m) = true) := by
    unfold numberInvalid
    simp only [hnum, Bool.true_and, notNull, Bool.or_eq_true]
    cases hm : f.min with
    | none =>
      simp only [parseFloatAttr]
      cases pf f.value <;> simp [JSNum.lt, JSNum.isNaN]
    | some m => simp [parseFloatAttr]
  refine ⟨?_, ?_, ?_⟩
  · rw [hv]; by_cases h : numberInvalid pf f = true <;> simp [h]
  · rw [hv, ← hni]; by_cases h : numberInvalid pf f = true <;> simp [h]
  · intro hmin hnan
    rw [hv]
    have : ¬ numberInvalid pf f = true := by
      rw [hni]; simp [hmin, hnan]
    simp [this]

/-- C5 at the rate field of the sample page: `150` against `min="0"` passes. -/
theorem number_field_rule_witness :
    verdict parseFloatPlain samplePage ⟨"rate", "number", true, some "0", "150", false, 8⟩
      = some false ↔
      ((parseFloatPlain "150").isNaN = true ∨
        ∃ m, (some "0" : Option String) = some m ∧
          (parseFloatPlain "150").lt (parseFloatPlain m) = true) :=
  (number_field_rule parseFloatPlain samplePage
    ⟨"rate", "number", true, some "0", "150", false, 8⟩ rfl (by decide)).2.1

/-! ## Dates: the date-only form and the order of time values -/

theorem digitVal_digitChar (n : Nat) : digitVal (digitChar n) = some (n % 10) := by
  have h : n % 10 < 10 := Nat.mod_lt _ (by decide)
  unfold digitChar
  generalize n % 10 = k at h
  interval_cases k <;> decide

theorem digitChar_not_whitespace (n : Nat) : isJsWhitespace (digitChar n) = false := by
  have h : n % 10 < 10 := Nat.mod_lt _ (by decide)
  unfold digitChar
  generalize n % 10 = k at h
  interval_cases k <;> decide

theorem digitChar_ne_dash (n : Nat) : digitChar n ≠ '-' := by
  have h : n % 10 < 10 := Nat.mod_lt _ (by decide)
  unfold digitChar
  generalize n % 10 = k at h
  interval_cases k <;> decide

theorem daysInMonth_le (y m : Nat) : daysInMonth y m ≤ 31 := by
  unfold daysInMonth
  split
  · split <;> omega
  · split <;> omega

/-- Reading back the value of a date input gives the date. -/
theorem parseIsoDate_toIso (a : CalDate) (h : a.valid = true) :
    parseIsoDate a.toIso = some a := by
  obtain ⟨y, m, d⟩ := a
  simp only [CalDate.valid, Bool.and_eq_true, decide_eq_true_eq] at h
  obtain ⟨⟨⟨⟨hy, hm1⟩, hm2⟩, hd1⟩, hd2⟩ := h
  have hd3 : d ≤ 31 := le_trans hd2 (daysInMonth_le y m)
  simp only [parseIsoDate, CalDate.toIso, digitVal_digitChar, and_self, if_true,
    Option.some.injEq, CalDate.mk.injEq]
  refine ⟨?_, ?_, ?_⟩ <;> omega

/-- The value of a date input is not blank. -/
theorem truthy_jsTrim_toIso (a : CalDate) : truthy (jsTrim a.toIso) = true := by
  simp [truthy, jsTrim, trimChars, CalDate.toIso, List.dropWhile, digitChar_not_whitespace]

theorem newDate_toIso (a : CalDate) (h : a.valid = true) :
    newDate a.toIso = JSNum.fin (timeValue a) := by
  simp [newDate, parseIsoDate_toIso a h, h]

theorem daysBeforeMonth_succ (y m : Nat) (h : 1 ≤ m) :
    daysBeforeMonth y (m + 1) = daysBeforeMonth y m + daysInMonth y m := by
  unfold daysBeforeMonth
  obtain ⟨k, rfl⟩ : ∃ k, m = k + 1 := ⟨m - 1, by omega⟩
  simp [List.range_succ]

theorem daysBeforeMonth_mono (y m : Nat) (h : 1 ≤ m) :
    ∀ k, daysBeforeMonth y m + daysInMonth y m ≤ daysBeforeMonth y (m + 1 + k) := by
  intro k
  induction k with
  | zero => rw [Nat.add_zero, daysBeforeMonth_succ y m h]
  | succ k ih =>
    rw [← Nat.add_assoc, daysBeforeMonth_succ y (m + 1 + k) (by omega)]
    omega

theorem daysBeforeMonth_thirteen (y : Nat) :
    daysBeforeMonth y 13 = 365 + (if isLeapYear y then 1 else 0) := by
  unfold daysBeforeMonth
  cases h : isLeapYear y <;> simp [List.range_succ, daysInMonth, h]

theorem dayFromYear_succ (y : Nat) :
    dayFromYear (y + 1) = dayFromYear y + 365 + (if isLeapYear y then 1 else 0) := by
  unfold dayFromYear isLeapYear
  by_cases h4 : y % 4 = 0 <;> by_cases h100 : y % 100 = 0 <;> by_cases h400 : y % 400 = 0 <;>
    simp [h4, h100, h400] <;> omega

theorem dayFromYear_mono (y k : Nat) : dayFromYear y ≤ dayFromYear (y + k) := by
  unfold dayFromYear
  push_cast
  omega

/-- The last day of a year comes before the first day of every later year. -/
theorem makeDay_lt_of_year_lt (a b : CalDate) (ha : a.valid = true) (hb : b.valid = true)
    (h : a.year < b.year) : makeDay a < makeDay b := by
  obtain ⟨y, m, d⟩ := a
  obtain ⟨y2, m2, d2⟩ := b
  simp only [CalDate.valid, Bool.and_eq_true, decide_eq_true_eq] at ha hb h
  obtain ⟨⟨⟨⟨_, hm1⟩, hm2⟩, hd1⟩, hd2⟩ := ha
  obtain ⟨⟨⟨⟨_, _⟩, _⟩, hd1b⟩, _⟩ := hb
  have hin : daysBeforeMonth y m + daysInMonth y m ≤ daysBeforeMonth y 13 := by
    have := daysBeforeMonth_mono y m hm1 (12 - m)
    have e : m + 1 + (12 - m) = 13 := by omega
    rwa [e] at this
  rw [daysBeforeMonth_thirteen] at hin
  have hy1 := dayFromYear_succ y
  have hy2 := dayFromYear_mono (y + 1) (y2 - (y + 1))
  have e : y + 1 + (y2 - (y + 1)) = y2 := by omega
  rw [e] at hy2
  unfold makeDay
  simp only []
  have : (0 : Int) ≤ (daysBeforeMonth y2 m2 : Int) := Int.natCast_nonneg _
  split at hin <;> simp_all <;> omega

/-- The calendar order of two valid dates is the order of their day numbers. -/
theorem makeDay_lt_of_earlier (a b : CalDate) (ha : a.valid = true) (hb : b.valid = true)
    (h : a.earlier b = true) : makeDay a < makeDay b := by
  by_cases hy : a.year < b.year
  · exact makeDay_lt_of_year_lt a b ha hb hy
  · obtain ⟨y, m, d⟩ := a
    obtain ⟨y2, m2, d2⟩ := b
    simp only [CalDate.earlier, Bool.or_eq_true, Bool.and_eq_true, decide_eq_true_eq,
      beq_iff_eq] at h hy
    simp only [CalDate.valid, Bool.and_eq_true, decide_eq_true_eq] at ha hb
    obtain ⟨⟨⟨⟨_, hm1⟩, hm2⟩, hd1⟩, hd2⟩ := ha
    obtain ⟨⟨⟨⟨_, _⟩, _⟩, hd1b⟩, _⟩ := hb
    rcases h with h | ⟨rfl, h⟩
    · exact absurd h hy
    · unfold makeDay
      simp only []
      rcases h with h | ⟨rfl, h⟩
      · have := daysBeforeMonth_mono y m hm1 (m2 - (m + 1))
        have e : m + 1 + (m2 - (m + 1)) = m2 := by omega
        rw [e] at this
        omega
      · omega

theorem earlier_total (a b : CalDate) : a.earlier b = true ∨ a = b ∨ b.earlier a = true := by
  obtain ⟨y, m, d⟩ := a
  obtain ⟨y2, m2, d2⟩ := b
  simp only [CalDate.earlier, Bool.or_eq_true, Bool.and_eq_true, decide_eq_true_eq,
    beq_iff_eq, CalDate.mk.injEq]
  omega

theorem earlier_asymm (a b : CalDate) (h : a.earlier b = true) : b.earlier a = false := by
  obtain ⟨y, m, d⟩ := a
  obtain ⟨y2, m2, d2⟩ := b
  apply Bool.eq_false_iff.mpr
  simp only [CalDate.earlier, Bool.or_eq_true, Bool.and_eq_true, decide_eq_true_eq,
    beq_iff_eq, ne_eq] at h ⊢
  omega

theorem earlier_irrefl (a : CalDate) : a.earlier a = false := by
  apply Bool.eq_false_iff.mpr
  simp [CalDate.earlier]

/-- The test `dueDate < invoiceDate` on two valid dates is the calendar order. -/
theorem lt_timeValue_eq_earlier (a b : CalDate) (ha : a.valid = true) (hb : b.valid = true) :
    (JSNum.fin (timeValue b)).lt (JSNum.fin (timeValue a)) = b.earlier a := by
  have key : ∀ x y : CalDate, x.valid = true → y.valid = true → x.earlier y = true →
      timeValue x < timeValue y := by
    intro x y hx hy hxy
    have := makeDay_lt_of_earlier x y hx hy hxy
    unfold timeValue msPerDay
    omega
  simp only [JSNum.lt, Int.cast_lt]
  rcases earlier_total b a with h | h | h
  · rw [h]; simpa using key b a hb ha h
  · subst h; rw [earlier_irrefl]; simp
  · rw [earlier_asymm a b h]
    have := key a b ha hb h
    simp only [decide_eq_false_iff_not, not_lt]
    omega

theorem getElementById_id (doc : Document) (id : String) (f : Field)
    (h : doc.getElementById id = some f) : f.id = id := by
  have := List.find?_some h
  simpa using this

/-- C4. With valid calendar dates in the `invoiceDate` and `dueDate` date fields,
`validateField` on the due-date field returns false exactly when the due date is an
earlier day than the invoice date (the same day passes), and `validateField` on the
invoice-date field returns true. -/
theorem due_date_rule (pf : String → JSNum) (doc : Document) (inv due : Field) (a b : CalDate)
    (ha : a.valid = true) (hb : b.valid = true)
    (hinv : doc.getElementById "invoiceDate" = some inv)
    (hdue : doc.getElementById "dueDate" = some due)
    (hit : inv.type = "date") (hdt : due.type = "date")
    (hiv : inv.value = a.toIso) (hdv : due.value = b.toIso) :
    verdict pf doc due = some (!(b.earlier a)) ∧ verdict pf doc inv = some true := by
  have hre : ∀ (f : Field) (c : CalDate), f.value = c.toIso → requiredEmpty f = false := by
    intro f c hf
    simp [requiredEmpty, hf, truthy_jsTrim_toIso]
  have hni : ∀ f : Field, f.type = "date" → numberInvalid pf f = false := by
    intro f hf
    have : (f.type == "number") = false := by rw [hf]; decide
    simp [numberInvalid, this]
  have hdid : due.id = "dueDate" := getElementById_id doc _ due hdue
  have hiid : inv.id = "invoiceDate" := getElementById_id doc _ inv hinv
  constructor
  · rw [verdict_eq, hre due b hdv, hni due hdt]
    simp only [Bool.false_eq_true, if_false, hdt, hinv, hdue, hiv, hdv, newDate_toIso a ha,
      newDate_toIso b hb, lt_timeValue_eq_earlier a b ha hb, hdid]
    simp
  · rw [verdict_eq, hre inv a hiv, hni inv hit]
    simp only [Bool.false_eq_true, if_false, hit, hinv, hdue, hiid]
    simp

/-- C4 at the sample page: invoice date 2024-01-10, due date 2024-01-05. The due-date
field fails and the invoice-date field passes. -/
theorem due_date_rule_witness :
    verdict parseFloatPlain samplePage ⟨"dueDate", "date", true, none, "2024-01-05", false, 5⟩
      = some false ∧
    verdict parseFloatPlain samplePage
      ⟨"invoiceDate", "date", true, none, "2024-01-10", false, 4⟩ = some true :=
  due_date_rule parseFloatPlain samplePage
    ⟨"invoiceDate", "date", true, none, "2024-01-10", false, 4⟩
    ⟨"dueDate", "date", true, none, "2024-01-05", false, 5⟩ ⟨2024, 1, 10⟩ ⟨2024, 1, 5⟩
    (by decide) (by decide) (by decide) (by decide) rfl rfl (by decide) (by decide)

/-! ## Totals, logo upload, templates -/

/-- C1. `calculateTotals q r t` has subtotal `q * r`, tax `q * r * t / 100` and total
subtotal plus tax, for all numbers and so for all non-negative ones, with nothing
rounded on the way; for 3, 150 and 8 it gives 450, 36 and 486. -/
theorem calculateTotals_formulas (q r t : ℚ) :
    (calculateTotals q r t).subtotal = q * r ∧
    (calculateTotals q r t).tax = q * r * t / 100 ∧
    (calculateTotals q r t).total =
      (calculateTotals q r t).subtotal + (calculateTotals q r t).tax ∧
    calculateTotals 3 150 8 = ⟨450, 36, 486⟩ := by
  refine ⟨rfl, rfl, rfl, ?_⟩
  simp only [calculateTotals, Totals.mk.injEq]
  norm_num

/-- C8. The logo listener starts reading a selected file exactly when its MIME type
starts with `image/` and its size is at most 2 MiB. It then changes nothing else, and
the read, once loaded, makes its result the logo reference. Every other file is
rejected: no read starts, one alert is shown, the file input is cleared and the logo
reference stays as it was. A PNG of 3 MiB is rejected and one of 1 MiB is accepted. -/
theorem logo_upload_rule (st : LogoState) (file : File) :
    ((logoChangeListener st (some file)).2 = some file ↔
      (startsWith file.type "image/" = true ∧ file.size ≤ 2 * 1024 * 1024)) ∧
    ((logoChangeListener st (some file)).2 = some file →
      (logoChangeListener st (some file)).1 = st ∧
      ∀ result, (readerOnload (logoChangeListener st (some file)).1 result).logoDataUrl
        = some result) ∧
    ((logoChangeListener st (some file)).2 ≠ some file →
      (logoChangeListener st (some file)).2 = none ∧
      (∃ msg, (logoChangeListener st (some file)).1.alerts = st.alerts ++ [msg]) ∧
      (logoChangeListener st (some file)).1.inputValue = "" ∧
      (logoChangeListener st (some file)).1.logoDataUrl = st.logoDataUrl) ∧
    (logoChangeListener st (some ⟨"image/png", 3 * 1024 * 1024⟩)).2 = none ∧
    (logoChangeListener st (some ⟨"image/png", 1 * 1024 * 1024⟩)).2
      = some ⟨"image/png", 1 * 1024 * 1024⟩ := by
  refine ⟨?_, ?_, ?_, by simp [logoChangeListener, startsWith], by simp [logoChangeListener, startsWith]⟩
  · unfold logoChangeListener
    by_cases h1 : startsWith file.type "image/" = true
    · by_cases h2 : file.size > 2 * 1024 * 1024
      · simp [h1, h2]
      · simp [h1, h2]; omega
    · simp [h1]
  · unfold logoChangeListener
    by_cases h1 : startsWith file.type "image/" = true
    · by_cases h2 : file.size > 2 * 1024 * 1024
      · simp [h1, h2]
      · simp [h1, h2, readerOnload]
    · simp [h1]
  · unfold logoChangeListener
    by_cases h1 : startsWith file.type "image/" = true
    · by_cases h2 : file.size > 2 * 1024 * 1024
      · simp [h1, h2]
      · simp [h1, h2]
    · simp [h1]

theorem truthy_eq_false_iff (s : String) : truthy s = false ↔ s = "" := by
  obtain ⟨cs⟩ := s
  cases cs with
  | nil => simp [truthy]
  | cons c cs =>
    simp only [truthy, List.isEmpty_cons, Bool.not_false, Bool.true_eq_false, false_iff]
    intro h
    have := congrArg String.data h
    simp at this

theorem orDefault_some (s d : String) : orDefault (some s) d = if s = "" then d else s := by
  unfold orDefault
  by_cases h : s = ""
  · subst h; simp [truthy]
  · have : truthy s = true := by
      cases ht : truthy s
      · exact absurd ((truthy_eq_false_iff s).mp ht) h
      · rfl
    simp [h, this]

/-- C6 as stated fails: with an empty tax rate field, the saved record holds the tax
rate (the empty string), and after `saveTemplate` and `loadTemplate` the field is
`0`. -/
theorem template_roundtrip_counterexample :
    (∃ t, (saveTemplate blankTaxForm "2024-01-10T09:00:00.000Z" false).storage
        = StoredItem.record t ∧ t.taxRate = some blankTaxForm.taxRate) ∧
    (loadTemplate (saveTemplate blankTaxForm "2024-01-10T09:00:00.000Z" false)).taxRate = "0" ∧
    (loadTemplate (saveTemplate blankTaxForm "2024-01-10T09:00:00.000Z" false)).taxRate
      ≠ blankTaxForm.taxRate := by
  refine ⟨⟨_, rfl, rfl⟩, by decide, by decide⟩

/-- C6, amended. When `saveTemplate` stores its record, a later `loadTemplate` sets
the business name and the notes to the saved values, sets the currency and the tax rate to
the saved value when that is not empty and to `$` and `0` when it is, and sets the logo
reference to the saved one when that is a non-empty string and leaves it alone otherwise;
straight after the save the logo reference is the saved one. A field the stored record
lacks resolves to its default: empty business name, `$`, `0`, empty notes. -/
theorem template_roundtrip :
    (∀ (st cur : TemplateState) (now : String),
      cur.storage = (saveTemplate st now false).storage →
      (loadTemplate cur).businessName = st.businessName ∧
      (loadTemplate cur).additionalNotes = st.additionalNotes ∧
      (loadTemplate cur).currency = (if st.currency = "" then "$" else st.currency) ∧
      (loadTemplate cur).taxRate = (if st.taxRate = "" then "0" else st.taxRate) ∧
      (∀ url, st.logoDataUrl = some url → url ≠ "" → (loadTemplate cur).logoDataUrl = some url) ∧
      ((st.logoDataUrl = none ∨ st.logoDataUrl = some "") →
        (loadTemplate cur).logoDataUrl = cur.logoDataUrl)) ∧
    (∀ (st : TemplateState) (now : String),
      (loadTemplate (saveTemplate st now false)).logoDataUrl = st.logoDataUrl) ∧
    (∀ (cur : TemplateState) (t : Template), cur.storage = StoredItem.record t →
      (t.businessName = none → (loadTemplate cur).businessName = "") ∧
      (t.currency = none → (loadTemplate cur).currency = "$") ∧
      (t.taxRate = none → (loadTemplate cur).taxRate = "0") ∧
      (t.additionalNotes = none → (loadTemplate cur).additionalNotes = "")) := by
  have hload : ∀ (cur : TemplateState) (t : Template), cur.storage = StoredItem.record t →
      (loadTemplate cur).businessName = orDefault t.businessName "" ∧
      (loadTemplate cur).currency = orDefault t.currency "$" ∧
      (loadTemplate cur).taxRate = orDefault t.taxRate "0" ∧
      (loadTemplate cur).additionalNotes = orDefault t.additionalNotes "" ∧
      (loadTemplate cur).logoDataUrl =
        (match t.logoDataUrl with
          | some url => if truthy url then some url else cur.logoDataUrl
          | none => cur.logoDataUrl) := by
    intro cur t h
    obtain ⟨bn, cu, tr, an, lg, sa⟩ := t
    unfold loadTemplate
    rw [h]
    cases lg with
    | none => simp
    | some url => by_cases hu : truthy url = true <;> simp [hu]
  refine ⟨?_, ?_, ?_⟩
  · intro st cur now hs
    simp only [saveTemplate, Bool.false_eq_true, if_false] at hs
    obtain ⟨h1, h2, h3, h4, h5⟩ := hload cur _ hs
    simp only [] at h1 h2 h3 h4 h5
    refine ⟨?_, ?_, ?_, ?_, ?_, ?_⟩
    · rw [h1, orDefault_some]; split <;> simp_all
    · rw [h4, orDefault_some]; split <;> simp_all
    · rw [h2, orDefault_some]
    · rw [h3, orDefault_some]
    · intro url hurl hne
      rw [h5, hurl]
      have : truthy url = true := by
        cases ht : truthy url
        · exact absurd ((truthy_eq_false_iff url).mp ht) hne
        · rfl
      simp [this]
    · intro hcase
      rw [h5]
      rcases hcase with hn | he
      · rw [hn]
      · rw [he]; rfl
  · intro st now
    have hs : (saveTemplate st now false).storage = StoredItem.record
        { businessName := some st.businessName, currency := some st.currency,
          taxRate := some st.taxRate, additionalNotes := some st.additionalNotes,
          logoDataUrl := st.logoDataUrl, savedAt := some now } := by
      simp [saveTemplate]
    have h5 := (hload _ _ hs).2.2.2.2
    rw [h5]
    simp only [saveTemplate, Bool.false_eq_true, if_false]
    cases st.logoDataUrl with
    | none => rfl
    | some url =>
      by_cases hu : truthy url = true
      · simp [hu]
      · have : url = "" := (truthy_eq_false_iff url).mp (by simpa using hu)
        simp [hu, this]
  · intro cur t hs
    obtain ⟨h1, h2, h3, h4, _⟩ := hload cur t hs
    refine ⟨?_, ?_, ?_, ?_⟩
    · intro h; rw [h1, h]; rfl
    · intro h; rw [h2, h]; rfl
    · intro h; rw [h3, h]; rfl
    · intro h; rw [h4, h]; rfl

/-- C6, amended, at the form with the empty tax rate: the other three fields and the
logo come back as saved, and the tax rate comes back as `0`. -/
theorem template_roundtrip_witness :
    (loadTemplate (saveTemplate blankTaxForm "2024-01-10T09:00:00.000Z" false)).businessName
      = "Acme" ∧
    (loadTemplate (saveTemplate blankTaxForm "2024-01-10T09:00:00.000Z" false)).additionalNotes
      = "Net 30" ∧
    (loadTemplate (saveTemplate blankTaxForm "2024-01-10T09:00:00.000Z" false)).currency
      = "€" ∧
    (loadTemplate (saveTemplate blankTaxForm "2024-01-10T09:00:00.000Z" false)).taxRate
      = "0" :=
  have h := template_roundtrip.1 blankTaxForm
    (saveTemplate blankTaxForm "2024-01-10T09:00:00.000Z" false) "2024-01-10T09:00:00.000Z" rfl
  ⟨h.1, h.2.1, h.2.2.1, h.2.2.2.1⟩

/-! ## The PDF: layout -/

theorem scanl_add_chain (l : List Nat) :
    ∀ a : Nat, List.Chain' (fun x y => x ≤ y) (List.scanl (fun y k => y + k) a l) := by
  induction l with
  | nil => intro a; simp [List.scanl]
  | cons k l ih =>
    intro a
    have h := ih (a + k)
    cases l with
    | nil => simp [List.scanl]
    | cons k2 l2 =>
      simp only [List.scanl] at h ⊢
      exact List.Chain'.cons (Nat.le_add_right a k) h

theorem scanl_add_eq_cons (l : List Nat) (a : Nat) :
    List.scanl (fun y k => y + k) a l = a :: (List.scanl (fun y k => y + k) a l).tail := by
  cases l <;> rfl

theorem scanl_add_head (l : List Nat) (a : Nat) :
    (List.scanl (fun y k => y + k) a l).head? = some a := by
  cases l <;> rfl

theorem blockPositions_chain (b m : Nat) (withNotes : Bool) :
    List.Chain' (fun x y => x ≤ y) (blockPositions b m withNotes) := by
  cases withNotes <;>
    simp only [blockPositions, List.cons_append, List.nil_append, List.append_nil,
      Bool.false_eq_true, if_false, if_true, List.chain'_cons, List.chain'_singleton,
      and_true] <;>
    omega

/-- The pen after a list of statements: the cursor values it adds are the running sums
of the advances, and the calls it adds are those made from the cursor value it started
at. -/
theorem run_eq (steps : List Step) :
    ∀ p : Pen, (p.run steps).trace
        = p.trace ++ (List.scanl (fun y k => y + k) p.y (advancesOf steps)).tail ∧
      (p.run steps).calls = p.calls ++ callsFrom p.y steps := by
  induction steps with
  | nil => intro p; simp [Pen.run, advancesOf, callsFrom, List.scanl]
  | cons s rest ih =>
    intro p
    obtain ⟨y, cs, tr⟩ := p
    cases s with
    | call c =>
      obtain ⟨h1, h2⟩ := ih ⟨y, cs ++ [c], tr⟩
      exact ⟨by simpa [Pen.run, Pen.step, Pen.call, advancesOf] using h1,
        by simpa [Pen.run, Pen.step, Pen.call, callsFrom] using h2⟩
    | draw c =>
      obtain ⟨h1, h2⟩ := ih ⟨y, cs ++ [c y], tr⟩
      exact ⟨by simpa [Pen.run, Pen.step, Pen.draw, advancesOf] using h1,
        by simpa [Pen.run, Pen.step, Pen.draw, callsFrom] using h2⟩
    | advance k =>
      obtain ⟨h1, h2⟩ := ih ⟨y + k, cs, tr ++ [y + k]⟩
      refine ⟨?_, by simpa [Pen.run, Pen.step, Pen.advance, callsFrom] using h2⟩
      simp only [Pen.run, Pen.step, Pen.advance, advancesOf, List.scanl, List.tail_cons]
      rw [h1, scanl_add_eq_cons]
      simp

/-- The advances and the block positions of the drawing statements, by evaluation. -/
theorem invoiceSteps_eval (wn ww : Bool) (m k b : Nat) :
    advancesOf (invoiceSteps wn ww m k)
      = [10, 15, 6, 6, 15, 7, 20, 15, m, 10, 7, 10, 7, 15] ++ (if wn then [7, k] else []) ∧
    (callsFrom b (invoiceSteps wn ww m k)).filterMap blockY = blockPositions b m wn := by
  cases wn <;> cases ww <;> exact ⟨rfl, rfl⟩



/-- The three pens the logo block can leave. -/
theorem logoStep_cases (logoDataUrl : Option String) (addImageRaises : Bool) :
    ((logoDataUrl.map truthy).getD false = false ∧
      logoStep logoDataUrl addImageRaises Pen.start = ⟨20, [], [20]⟩) ∨
    (∃ url, logoDataUrl = some url ∧ (logoDataUrl.map truthy).getD false = true ∧
      addImageRaises = true ∧
      logoStep logoDataUrl addImageRaises Pen.start
        = ⟨20, [Call.addImage url 15 20 40 20], [20]⟩) ∨
    (∃ url, logoDataUrl = some url ∧ (logoDataUrl.map truthy).getD false = true ∧
      addImageRaises = false ∧
      logoStep logoDataUrl addImageRaises Pen.start
        = ⟨45, [Call.addImage url 15 20 40 20], [20, 45]⟩) := by
  cases logoDataUrl with
  | none => left; exact ⟨rfl, rfl⟩
  | some url =>
    cases hu : truthy url
    · left; simp [logoStep, hu, Pen.start]
    · cases addImageRaises
      · right; right
        exact ⟨url, rfl, by simp [hu], rfl, by simp [logoStep, hu, Pen.start, Pen.draw, Pen.advance]⟩
      · right; left
        exact ⟨url, rfl, by simp [hu], rfl, by simp [logoStep, hu, Pen.start, Pen.draw]⟩

/-- C10. The cursor `yPosition` of `generatePDF` starts at 20 and its successive
values are the running sums of the amounts added: 25 after a logo that was drawn, then
fixed amounts around `max (5 * d) 10` for the line-item row, and 7 and `5 * n` under
the notes. So it never decreases, and the vertical positions at which the logo, the
header, the invoice data, the bill-to block, the table header, the line-item row, the
totals and the notes are drawn are in non-decreasing order. -/
theorem yPosition_never_decreases (inp : InvoiceInput) (logoDataUrl : Option String)
    (addImageRaises : Bool) (d n : Nat) :
    (layout inp logoDataUrl addImageRaises d n).trace =
      List.scanl (fun y k => y + k) 20
        (advances ((logoDataUrl.map truthy).getD false && !addImageRaises) d
          (truthy (jsTrim inp.additionalNotes)) n) ∧
    (layout inp logoDataUrl addImageRaises d n).trace.head? = some 20 ∧
    List.Chain' (fun a b => a ≤ b) (layout inp logoDataUrl addImageRaises d n).trace ∧
    List.Chain' (fun a b => a ≤ b)
      ((layout inp logoDataUrl addImageRaises d n).calls.filterMap blockY) := by
  have htrace : (layout inp logoDataUrl addImageRaises d n).trace =
      List.scanl (fun y k => y + k) 20
        (advances ((logoDataUrl.map truthy).getD false && !addImageRaises) d
          (truthy (jsTrim inp.additionalNotes)) n) := by
    unfold layout drawInvoice
    simp only []
    rw [(run_eq _ _).1, (invoiceSteps_eval _ _ _ _ 0).1]
    rcases logoStep_cases logoDataUrl addImageRaises with ⟨h1, h2⟩ | ⟨url, _, h1, h3, h2⟩ |
        ⟨url, _, h1, h3, h2⟩
    · rw [h2, h1]
      simp only [advances, Bool.false_and, Bool.false_eq_true, if_false, List.nil_append]
      rw [scanl_add_eq_cons _ 20]
      simp
    · rw [h2, h1, h3]
      simp only [advances, Bool.not_true, Bool.and_false, Bool.false_eq_true, if_false,
        List.nil_append]
      rw [scanl_add_eq_cons _ 20]
      simp
    · rw [h2, h1, h3]
      have e : ∀ l, List.scanl (fun y k => y + k) 20 (25 :: l)
          = 20 :: List.scanl (fun y k => y + k) 45 l := fun l => rfl
      simp only [advances, Bool.not_false, Bool.and_true, if_true, List.cons_append,
        List.nil_append, List.append_assoc]
      rw [e, scanl_add_eq_cons _ 45]
      simp
  refine ⟨htrace, ?_, ?_, ?_⟩
  · rw [htrace]; exact scanl_add_head _ _
  · rw [htrace]; exact scanl_add_chain _ _
  · unfold layout drawInvoice
    simp only []
    rw [(run_eq _ _).2, List.filterMap_append]
    rcases logoStep_cases logoDataUrl addImageRaises with ⟨_, h2⟩ | ⟨url, _, _, _, h2⟩ |
        ⟨url, _, _, _, h2⟩
    · rw [h2, (invoiceSteps_eval _ _ _ _ 20).2]
      simpa using blockPositions_chain 20 _ _
    · rw [h2, (invoiceSteps_eval _ _ _ _ 20).2]
      have h := blockPositions_chain 20 (max (d * 5) 10) (truthy (jsTrim inp.additionalNotes))
      simp only [List.filterMap_cons, List.filterMap_nil, blockY, List.cons_append,
        List.nil_append]
      refine List.Chain'.cons' h ?_
      intro y hy
      cases hw : truthy (jsTrim inp.additionalNotes) <;>
        simp [blockPositions, hw] at hy <;> omega
    · rw [h2, (invoiceSteps_eval _ _ _ _ 45).2]
      have h := blockPositions_chain 45 (max (d * 5) 10) (truthy (jsTrim inp.additionalNotes))
      simp only [List.filterMap_cons, List.filterMap_nil, blockY, List.cons_append,
        List.nil_append]
      refine List.Chain'.cons' h ?_
      intro y hy
      cases hw : truthy (jsTrim inp.additionalNotes) <;>
        simp [blockPositions, hw] at hy <;> omega

/-! ## The PDF: exceptions and the file name -/

theorem mem_runCalls (raises : Nat → Bool) :
    ∀ (cs : List Call) (k : Nat) (x : Call × Bool), x ∈ runCalls raises k cs → x.1 ∈ cs := by
  intro cs
  induction cs with
  | nil => intro k x h; simp [runCalls] at h
  | cons c cs ih =>
    intro k x h
    unfold runCalls at h
    split at h
    · simp only [List.mem_singleton] at h
      subst h
      exact List.mem_cons_self _ _
    · rcases List.mem_cons.mp h with rfl | h
      · exact List.mem_cons_self _ _
      · exact List.mem_cons_of_mem _ (ih _ _ h)

theorem runCalls_never (cs : List Call) :
    ∀ k, runCalls (fun _ => false) k cs = cs.map (fun c => (c, false)) := by
  induction cs with
  | nil => intro k; rfl
  | cons c cs ih => intro k; simp [runCalls, ih]

/-- The drawing statements make no `addImage` call and no `save` call. -/
theorem callsFrom_invoiceSteps (wn ww : Bool) (m k y : Nat) :
    ∀ c ∈ callsFrom y (invoiceSteps wn ww m k), c.isAddImage = false ∧ c.isSave = false := by
  have h : (callsFrom y (invoiceSteps wn ww m k)).all
      (fun c => !c.isAddImage && !c.isSave) = true := by
    cases wn <;> cases ww <;> rfl
  intro c hc
  have := List.all_eq_true.mp h c hc
  simpa using this

/-- The calls of the logo block: none, or one `addImage` call. -/
theorem logoStep_calls (logoDataUrl : Option String) (addImageRaises : Bool) :
    (logoStep logoDataUrl addImageRaises Pen.start).calls = [] ∨
    ∃ url, (logoStep logoDataUrl addImageRaises Pen.start).calls
      = [Call.addImage url 15 20 40 20] := by
  rcases logoStep_cases logoDataUrl addImageRaises with ⟨_, h⟩ | ⟨url, _, _, _, h⟩ |
      ⟨url, _, _, _, h⟩
  · left; rw [h]
  · right; exact ⟨url, by rw [h]⟩
  · right; exact ⟨url, by rw [h]⟩

/-- The shape of what the `try` block does. -/
theorem tryBlock_cases (pf : String → JSNum) (raises : Nat → Bool) (d n : Nat) (doc : Document)
    (logoDataUrl : Option String) :
    (raises 0 = true ∧
      tryBlock pf raises d n doc logoDataUrl = ⟨[(Call.create, true)], [], true⟩) ∨
    (readInputs pf doc = none ∧
      tryBlock pf raises d n doc logoDataUrl = ⟨[(Call.create, false)], [], true⟩) ∨
    (∃ (inp : InvoiceInput) (logoCalls : List (Call × Bool)) (body : List Call),
      readInputs pf doc = some inp ∧
      (logoCalls = [] ∨ ∃ url, logoCalls = [(Call.addImage url 15 20 40 20, raises 1)]) ∧
      (∀ c ∈ body, c.isAddImage = false ∧ c.isSave = false) ∧
      (((runCalls raises (logoCalls.length + 1) body).any (fun c => c.2) = true ∧
        tryBlock pf raises d n doc logoDataUrl =
          ⟨(Call.create, false) :: logoCalls ++ runCalls raises (logoCalls.length + 1) body,
            if logoCalls.any (fun c => c.2) then ["Error adding logo:"] else [], true⟩) ∨
       ((runCalls raises (logoCalls.length + 1) body).any (fun c => c.2) = false ∧
        ∃ i, tryBlock pf raises d n doc logoDataUrl =
          ⟨(Call.create, false) :: logoCalls ++ runCalls raises (logoCalls.length + 1) body ++
              [(Call.save (fileName inp.invoiceNumber inp.clientName), raises i)],
            if logoCalls.any (fun c => c.2) then ["Error adding logo:"] else [], raises i⟩))) := by
  unfold tryBlock
  by_cases h0 : raises 0 = true
  · left; simp [h0]
  · right
    cases hr : readInputs pf doc with
    | none => left; simp [h0]
    | some inp =>
      right
      simp only [h0, Bool.false_eq_true, if_false]
      refine ⟨inp, (logoStep logoDataUrl (raises 1) Pen.start).calls.map (fun c => (c, raises 1)),
        callsFrom (logoStep logoDataUrl (raises 1) Pen.start).y
          (invoiceSteps (truthy (jsTrim inp.additionalNotes)) inp.addWatermark
            (max (d * 5) 10) (n * 5)), rfl, ?_, callsFrom_invoiceSteps _ _ _ _ _, ?_⟩
      · rcases logoStep_calls logoDataUrl (raises 1) with h | ⟨url, h⟩
        · left; rw [h]; rfl
        · right; exact ⟨url, by rw [h]; rfl⟩
      · have hdrop : List.drop (logoStep logoDataUrl (raises 1) Pen.start).calls.length
            (layout inp logoDataUrl (raises 1) d n).calls
            = callsFrom (logoStep logoDataUrl (raises 1) Pen.start).y
                (invoiceSteps (truthy (jsTrim inp.additionalNotes)) inp.addWatermark
                  (max (d * 5) 10) (n * 5)) := by
          unfold layout drawInvoice
          simp only []
          rw [(run_eq _ _).2, List.drop_left]
        simp only [hdrop, List.length_cons, List.length_map]
        by_cases hany : (runCalls raises
            ((logoStep logoDataUrl (raises 1) Pen.start).calls.length + 1)
            (callsFrom (logoStep logoDataUrl (raises 1) Pen.start).y
              (invoiceSteps (truthy (jsTrim inp.additionalNotes)) inp.addWatermark
                (max (d * 5) 10) (n * 5)))).any (fun c => c.2) = true
        · left
          refine ⟨hany, ?_⟩
          simp only [hany, if_true]
        · right
          refine ⟨by simpa using hany, ?_⟩
          simp only [hany, if_false]
          exact ⟨_, rfl⟩



theorem replaceRuns_true (cs : List Char) :
    replaceRuns true cs = replaceRuns false (cs.dropWhile isJsWhitespace) := by
  induction cs with
  | nil => rfl
  | cons c cs ih =>
    by_cases h : isJsWhitespace c = true
    · simp [replaceRuns, List.dropWhile, h, ih]
    · simp [replaceRuns, List.dropWhile, h]

theorem replaceRuns_length (cs : List Char) :
    ∀ b, (replaceRuns b cs).length ≤ cs.length := by
  induction cs with
  | nil => intro b; simp [replaceRuns]
  | cons c cs ih =>
    intro b
    have h1 := ih true
    have h2 := ih false
    unfold replaceRuns
    split
    · split
      · simp only [List.length_cons]; omega
      · simp only [List.length_cons]; omega
    · simp only [List.length_cons]; omega

theorem replaceRuns_no_whitespace (cs : List Char) :
    ∀ b, ∀ c ∈ replaceRuns b cs, isJsWhitespace c = false := by
  induction cs with
  | nil => intro b c h; simp [replaceRuns] at h
  | cons x cs ih =>
    intro b c h
    unfold replaceRuns at h
    split at h
    · split at h
      · exact ih _ c h
      · rcases List.mem_cons.mp h with rfl | h
        · decide
        · exact ih _ c h
    · rcases List.mem_cons.mp h with rfl | h
      · simpa using ‹¬isJsWhitespace c = true›
      · exact ih _ c h

theorem replaceRuns_single (cs : List Char) :
    List.Chain' (fun a b => ¬(isJsWhitespace a = true ∧ isJsWhitespace b = true)) cs →
    (∀ b, (b = true → ∀ c, cs.head? = some c → isJsWhitespace c = false) →
      replaceRuns b cs = cs.map (fun c => if isJsWhitespace c then '_' else c)) := by
  induction cs with
  | nil => intro _ b _; rfl
  | cons x cs ih =>
    intro hch b hb
    have hch2 := ih (List.Chain'.tail hch)
    by_cases hx : isJsWhitespace x = true
    · have hbf : b = false := by
        cases b
        · rfl
        · have := hb rfl x rfl
          rw [hx] at this
          exact absurd this (by decide)
      subst hbf
      simp only [replaceRuns, hx, if_true, Bool.false_eq_true, if_false, List.map_cons,
        List.cons.injEq, true_and]
      apply hch2
      intro _ c hc
      cases cs with
      | nil => simp at hc
      | cons y ys =>
        simp only [List.head?_cons, Option.some.injEq] at hc
        subst hc
        have := (List.chain'_cons.mp hch).1
        simp only [hx, true_and] at this
        simpa using this
    · simp only [replaceRuns, hx, Bool.false_eq_true, if_false, List.map_cons, List.cons.injEq,
        true_and]
      apply hch2
      intro h
      exact absurd h (by decide)

theorem generatePDF_attempted_nil (pf : String → JSNum) (raises : Nat → Bool) (d n : Nat)
    (app : App) (h : ∀ doc, validateForm pf app.doc ≠ some (true, doc)) :
    (generatePDF pf raises d n app).attempted = [] := by
  unfold generatePDF
  cases hv : validateForm pf app.doc with
  | none => rfl
  | some r =>
    obtain ⟨b, doc⟩ := r
    cases b
    · rfl
    · exact absurd hv (h doc)

theorem generatePDF_of_valid (pf : String → JSNum) (raises : Nat → Bool) (d n : Nat)
    (app : App) (doc : Document) (h : validateForm pf app.doc = some (true, doc)) :
    (generatePDF pf raises d n app).attempted
        = (tryBlock pf raises d n doc app.logoDataUrl).attempted ∧
    (generatePDF pf raises d n app).alerts
        = (if (tryBlock pf raises d n doc app.logoDataUrl).raised
            then ["Error generating PDF. Please try again."] else []) ∧
    (generatePDF pf raises d n app).consoleErrors
        = (if (tryBlock pf raises d n doc app.logoDataUrl).raised
            then (tryBlock pf raises d n doc app.logoDataUrl).consoleErrors
              ++ ["Error generating PDF:"]
            else (tryBlock pf raises d n doc app.logoDataUrl).consoleErrors) := by
  unfold generatePDF
  simp only [h]
  cases (tryBlock pf raises d n doc app.logoDataUrl).raised <;> simp

theorem readInputs_names (pf : String → JSNum) (doc : Document) (inp : InvoiceInput)
    (h : readInputs pf doc = some inp) :
    ∃ inv cli, doc.getElementById "invoiceNumber" = some inv ∧
      doc.getElementById "clientName" = some cli ∧
      inp.invoiceNumber = inv.value ∧ inp.clientName = cli.value := by
  unfold readInputs at h
  obtain ⟨_, _, h⟩ := Option.bind_eq_some.mp h
  obtain ⟨_, _, h⟩ := Option.bind_eq_some.mp h
  obtain ⟨inv, hinv, h⟩ := Option.bind_eq_some.mp h
  obtain ⟨cli, hcli, h⟩ := Option.bind_eq_some.mp h
  obtain ⟨_, _, h⟩ := Option.bind_eq_some.mp h
  obtain ⟨_, _, h⟩ := Option.bind_eq_some.mp h
  obtain ⟨_, _, h⟩ := Option.bind_eq_some.mp h
  obtain ⟨_, _, h⟩ := Option.bind_eq_some.mp h
  obtain ⟨_, _, h⟩ := Option.bind_eq_some.mp h
  obtain ⟨_, _, h⟩ := Option.bind_eq_some.mp h
  obtain ⟨_, _, h⟩ := Option.bind_eq_some.mp h
  obtain ⟨_, _, h⟩ := Option.bind_eq_some.mp h
  have h2 := Option.some.inj h
  subst h2
  exact ⟨inv, cli, hinv, hcli, rfl, rfl⟩

/-- C7 as stated fails: on the valid page with a logo, when `addImage` (call number 1)
raises and no other call does, `generatePDF` shows no alert and calls `doc.save`. -/
theorem generatePDF_addImage_counterexample :
    (Call.addImage "data:image/png;base64,AAAA" 15 20 40 20, true)
      ∈ (generatePDF parseFloatPlain (fun i => i == 1) 1 1 validApp).attempted ∧
    (generatePDF parseFloatPlain (fun i => i == 1) 1 1 validApp).alerts = [] ∧
    (Call.save "Invoice_INV-7_Ada_Lovelace.pdf", false)
      ∈ (generatePDF parseFloatPlain (fun i => i == 1) 1 1 validApp).attempted := by
  decide

/-- C7, amended. An exception raised by a collaborator call of `generatePDF` other
than `addImage` reaches the outer handler: the one alert is the generic failure notice,
no `doc.save` call completes, and when the raising call is not `doc.save` itself, `doc.save`
is not called. An exception raised by `addImage` is caught by the inner handler and
logged; when no other call raises, no alert is shown and `doc.save` is called and
completes. -/
theorem generatePDF_exceptions (pf : String → JSNum) (raises : Nat → Bool) (d n : Nat)
    (app : App) :
    (∀ c, (c, true) ∈ (generatePDF pf raises d n app).attempted → c.isAddImage = false →
      (generatePDF pf raises d n app).alerts = ["Error generating PDF. Please try again."] ∧
      (∀ name, (Call.save name, false) ∉ (generatePDF pf raises d n app).attempted) ∧
      (c.isSave = false →
        ∀ name b, (Call.save name, b) ∉ (generatePDF pf raises d n app).attempted)) ∧
    (∀ c, (c, true) ∈ (generatePDF pf raises d n app).attempted → c.isAddImage = true →
      "Error adding logo:" ∈ (generatePDF pf raises d n app).consoleErrors ∧
      ((∀ c2, (c2, true) ∈ (generatePDF pf raises d n app).attempted → c2.isAddImage = true) →
        (generatePDF pf raises d n app).alerts = [] ∧
        ∃ name, (Call.save name, false) ∈ (generatePDF pf raises d n app).attempted)) := by
  by_cases hval : ∃ doc, validateForm pf app.doc = some (true, doc)
  swap
  · have hnil := generatePDF_attempted_nil pf raises d n app
      (fun doc h => hval ⟨doc, h⟩)
    rw [hnil]
    exact ⟨fun c h => absurd h (List.not_mem_nil _), fun c h => absurd h (List.not_mem_nil _)⟩
  obtain ⟨doc, hv⟩ := hval
  obtain ⟨hatt, halert, hcons⟩ := generatePDF_of_valid pf raises d n app doc hv
  rw [hatt, halert, hcons]
  rcases tryBlock_cases pf raises d n doc app.logoDataUrl with ⟨_, ht⟩ | ⟨_, ht⟩ |
    ⟨inp, logoCalls, body, _, hlogo, hbody, hrun⟩
  · rw [ht]
    constructor
    · intro c _ _
      simp
    · intro c hc hadd
      simp only [List.mem_singleton, Prod.mk.injEq] at hc
      rw [hc.1] at hadd
      exact absurd hadd (by decide)
  · rw [ht]
    constructor
    · intro c hc; simp at hc
    · intro c hc; simp at hc
  · have hlogoAdd : ∀ x ∈ logoCalls, x.1.isAddImage = true ∧ x.2 = raises 1 := by
      intro x hx
      rcases hlogo with h | ⟨url, h⟩
      · rw [h] at hx; simp at hx
      · rw [h] at hx
        simp only [List.mem_singleton] at hx
        subst hx
        exact ⟨rfl, rfl⟩
    have hlogoErr : ∀ x ∈ logoCalls, x.2 = true →
        (if logoCalls.any (fun c => c.2) then ["Error adding logo:"] else [])
          = ["Error adding logo:"] := by
      intro x hx hx2
      have : logoCalls.any (fun c => c.2) = true := List.any_eq_true.mpr ⟨x, hx, hx2⟩
      simp [this]
    have hrunBody : ∀ x ∈ runCalls raises (logoCalls.length + 1) body,
        x.1.isAddImage = false ∧ x.1.isSave = false :=
      fun x hx => hbody x.1 (mem_runCalls raises body _ x hx)
    rcases hrun with ⟨hany, ht⟩ | ⟨hany, i, ht⟩
    · rw [ht]
      have hnosave : ∀ name b, (Call.save name, b) ∉
          (Call.create, false) :: logoCalls ++ runCalls raises (logoCalls.length + 1) body := by
        intro name b hmem
        simp only [List.cons_append, List.mem_cons, List.mem_append, Prod.mk.injEq,
          reduceCtorEq, false_and, false_or] at hmem
        rcases hmem with h | h
        · have := (hlogoAdd _ h).1
          simp [Call.isAddImage] at this
        · have := (hrunBody _ h).2
          simp [Call.isSave] at this
      constructor
      · intro c _ _
        exact ⟨by simp, fun name => hnosave name false, fun _ => hnosave⟩
      · intro c hc hadd
        simp only [List.cons_append, List.mem_cons, List.mem_append, Prod.mk.injEq] at hc
        obtain ⟨x, hx, hx2⟩ := List.any_eq_true.mp hany
        rcases hc with ⟨rfl, _⟩ | h | h
        · exact absurd hadd (by decide)
        · refine ⟨by rw [hlogoErr _ h rfl]; simp, ?_⟩
          intro hall
          have h1 := hall x.1 (by
            have : (x.1, true) = x := by rw [← hx2]
            rw [this]
            simp only [List.cons_append, List.mem_cons, List.mem_append]
            exact Or.inr (Or.inr hx))
          rw [(hrunBody x hx).1] at h1
          exact absurd h1 (by decide)
        · have := (hrunBody _ h).1
          simp only [] at this
          rw [this] at hadd
          exact absurd hadd (by decide)
    · generalize raises i = sr at ht
      rw [ht]
      have hflags : ∀ x ∈ runCalls raises (logoCalls.length + 1) body, x.2 = false := by
        intro x hx
        cases hx2 : x.2
        · rfl
        · have : (runCalls raises (logoCalls.length + 1) body).any (fun c => c.2) = true :=
            List.any_eq_true.mpr ⟨x, hx, hx2⟩
          rw [hany] at this
          exact absurd this (by decide)
      have hmem_cases : ∀ (c : Call) (b : Bool), (c, b) ∈
          (Call.create, false) :: logoCalls ++ runCalls raises (logoCalls.length + 1) body ++
            [(Call.save (fileName inp.invoiceNumber inp.clientName), sr)] →
          (c = Call.create ∧ b = false) ∨ ((c, b) ∈ logoCalls) ∨
          ((c, b) ∈ runCalls raises (logoCalls.length + 1) body) ∨
          (c = Call.save (fileName inp.invoiceNumber inp.clientName) ∧ b = sr) := by
        intro c b h
        simp only [List.cons_append, List.mem_cons, List.mem_append, List.mem_singleton,
          Prod.mk.injEq, List.not_mem_nil, or_false] at h
        rcases h with h | (h | h) | h
        · exact Or.inl h
        · exact Or.inr (Or.inl h)
        · exact Or.inr (Or.inr (Or.inl h))
        · exact Or.inr (Or.inr (Or.inr h))
      constructor
      · intro c hc hadd
        rcases hmem_cases c true hc with ⟨_, h⟩ | h | h | ⟨hcs, hsr⟩
        · exact absurd h (by decide)
        · have := (hlogoAdd _ h).1
          simp only [] at this
          rw [this] at hadd
          exact absurd hadd (by decide)
        · have := hflags _ h
          simp at this
        · subst hcs
          subst hsr
          refine ⟨by simp, ?_, ?_⟩
          · intro name hmem
            rcases hmem_cases _ false hmem with ⟨h, _⟩ | h | h | ⟨_, h⟩
            · exact absurd h (by simp)
            · have := (hlogoAdd _ h).1
              simp [Call.isAddImage] at this
            · have := (hrunBody _ h).2
              simp [Call.isSave] at this
            · simp at h
          · intro h
            simp [Call.isSave] at h
      · intro c hc hadd
        rcases hmem_cases c true hc with ⟨h, _⟩ | h | h | ⟨hcs, _⟩
        · subst h; exact absurd hadd (by decide)
        · have herr := hlogoErr _ h rfl
          rw [herr]
          refine ⟨by cases sr <;> simp, ?_⟩
          intro hall
          have hsr : sr = false := by
            cases hs : sr
            · rfl
            · have := hall (Call.save (fileName inp.invoiceNumber inp.clientName)) (by
                rw [hs]; simp)
              simp [Call.isAddImage] at this
          subst hsr
          refine ⟨by simp, fileName inp.invoiceNumber inp.clientName, by simp⟩
        · have := hflags _ h
          simp at this
        · subst hcs; simp [Call.isAddImage] at hadd

/-- C7, amended, on the valid page with a logo when call number 5, a `setFontSize`
call, raises: the generic notice is the one alert and `doc.save` is not called. -/
theorem generatePDF_exceptions_witness :
    (generatePDF parseFloatPlain (fun i => i == 5) 1 1 validApp).alerts
      = ["Error generating PDF. Please try again."] ∧
    ∀ name b, (Call.save name, b)
      ∉ (generatePDF parseFloatPlain (fun i => i == 5) 1 1 validApp).attempted :=
  have h := (generatePDF_exceptions parseFloatPlain (fun i => i == 5) 1 1 validApp).1
    (Call.setFontSize 16) (by decide) rfl
  ⟨h.1, h.2.2 rfl⟩

/-- C9 as stated fails: for the client name `Ada  Lovelace`, with two spaces, the name
passed to `doc.save` has one underscore where the claim has two, and the client part is
shorter than the client name. -/
theorem fileName_counterexample :
    (Call.save "Invoice_INV-7_Ada_Lovelace.pdf", false)
      ∈ (generatePDF parseFloatPlain (fun _ => false) 1 1 validApp).attempted ∧
    "Invoice_INV-7_Ada_Lovelace.pdf"
      ≠ "Invoice_" ++ "INV-7" ++ "_" ++ String.mk (eachSpaceReplaced "Ada  Lovelace".data)
          ++ ".pdf" ∧
    (replaceWhitespaceRuns "Ada  Lovelace".data).length ≠ "Ada  Lovelace".data.length := by
  decide

/-- C9, amended. Every name `generatePDF` passes to `doc.save` is `Invoice_`, the value of
the invoice number field, `_`, the client part and `.pdf`, where the client part is the
value of the client name field with every maximal run of white space replaced by one
underscore; and `doc.save` is called with that name when validation passes, the fields
are there and no call raises. The client part has no white space and is never longer
than the client name; when no two white-space characters of the client name are adjacent
it is the client name with each white-space character replaced by one underscore. -/
theorem fileName_rule (pf : String → JSNum) (raises : Nat → Bool) (d n : Nat) (app : App) :
    (∀ name b, (Call.save name, b) ∈ (generatePDF pf raises d n app).attempted →
      ∃ inv cli, app.doc.getElementById "invoiceNumber" = some inv ∧
        app.doc.getElementById "clientName" = some cli ∧
        name = "Invoice_" ++ inv.value ++ "_" ++
          String.mk (replaceWhitespaceRuns cli.value.data) ++ ".pdf") ∧
    (∀ doc inp, validateForm pf app.doc = some (true, doc) → readInputs pf doc = some inp →
      (∀ i, raises i = false) →
      (Call.save (fileName inp.invoiceNumber inp.clientName), false)
        ∈ (generatePDF pf raises d n app).attempted) ∧
    (∀ c cs, replaceWhitespaceRuns (c :: cs) =
      if isJsWhitespace c then '_' :: replaceWhitespaceRuns (cs.dropWhile isJsWhitespace)
      else c :: replaceWhitespaceRuns cs) ∧
    (∀ cs, (replaceWhitespaceRuns cs).length ≤ cs.length ∧
      ∀ c ∈ replaceWhitespaceRuns cs, isJsWhitespace c = false) ∧
    (∀ cs, List.Chain' (fun a b => ¬(isJsWhitespace a = true ∧ isJsWhitespace b = true)) cs →
      replaceWhitespaceRuns cs = cs.map (fun c => if isJsWhitespace c then '_' else c)) := by
  refine ⟨?_, ?_, ?_, ?_, ?_⟩
  · intro name b hmem
    by_cases hval : ∃ doc, validateForm pf app.doc = some (true, doc)
    swap
    · rw [generatePDF_attempted_nil pf raises d n app (fun doc h => hval ⟨doc, h⟩)] at hmem
      exact absurd hmem (List.not_mem_nil _)
    obtain ⟨doc, hv⟩ := hval
    have hfields : doc.fields = app.doc.fields := (validateAll_some pf _ _ _ hv).2.2.1
    rw [(generatePDF_of_valid pf raises d n app doc hv).1] at hmem
    rcases tryBlock_cases pf raises d n doc app.logoDataUrl with ⟨_, ht⟩ | ⟨_, ht⟩ |
      ⟨inp, logoCalls, body, hinp, hlogo, hbody, hrun⟩
    · rw [ht] at hmem; simp at hmem
    · rw [ht] at hmem; simp at hmem
    · have hlogoAdd : ∀ x ∈ logoCalls, x.1.isAddImage = true := by
        intro x hx
        rcases hlogo with h | ⟨url, h⟩
        · rw [h] at hx; simp at hx
        · rw [h] at hx
          simp only [List.mem_singleton] at hx
          subst hx
          rfl
      have hrunBody : ∀ x ∈ runCalls raises (logoCalls.length + 1) body, x.1.isSave = false :=
        fun x hx => (hbody x.1 (mem_runCalls raises body _ x hx)).2
      have hname : name = fileName inp.invoiceNumber inp.clientName := by
        rcases hrun with ⟨_, ht⟩ | ⟨_, i, ht⟩
        · rw [ht] at hmem
          simp only [List.cons_append, List.mem_cons, List.mem_append, Prod.mk.injEq,
            reduceCtorEq, false_and, false_or] at hmem
          rcases hmem with h | h
          · have := hlogoAdd _ h
            simp [Call.isAddImage] at this
          · have := hrunBody _ h
            simp [Call.isSave] at this
        · rw [ht] at hmem
          simp only [List.cons_append, List.mem_cons, List.mem_append, List.mem_singleton,
            Prod.mk.injEq, reduceCtorEq, false_and, false_or, List.not_mem_nil, or_false,
            Call.save.injEq] at hmem
          rcases hmem with (h | h) | h
          · have := hlogoAdd _ h
            simp [Call.isAddImage] at this
          · have := hrunBody _ h
            simp [Call.isSave] at this
          · exact h.1
      obtain ⟨inv, cli, h1, h2, h3, h4⟩ := readInputs_names pf doc inp hinp
      refine ⟨inv, cli, ?_, ?_, ?_⟩
      · simpa [Document.getElementById, hfields] using h1
      · simpa [Document.getElementById, hfields] using h2
      · rw [hname, h3, h4]; rfl
  · intro doc inp hv hinp hnever
    rw [(generatePDF_of_valid pf raises d n app doc hv).1]
    rcases tryBlock_cases pf raises d n doc app.logoDataUrl with ⟨h0, _⟩ | ⟨hn, _⟩ |
      ⟨inp2, logoCalls, body, hinp2, _, _, hrun⟩
    · rw [hnever 0] at h0; exact absurd h0 (by decide)
    · rw [hinp] at hn; exact absurd hn (by simp)
    · rw [hinp] at hinp2
      have := Option.some.inj hinp2
      subst this
      have hfuns : raises = fun _ => false := funext hnever
      rcases hrun with ⟨hany, _⟩ | ⟨_, i, ht⟩
      · obtain ⟨x, hx, hx2⟩ := List.any_eq_true.mp hany
        rw [hfuns, runCalls_never] at hx
        simp only [List.mem_map] at hx
        obtain ⟨c, _, rfl⟩ := hx
        simp at hx2
      · rw [ht, hnever i]
        simp
  · intro c cs
    by_cases h : isJsWhitespace c = true
    · simp [replaceWhitespaceRuns, replaceRuns, h, replaceRuns_true]
    · simp [replaceWhitespaceRuns, replaceRuns, h]
  · intro cs
    exact ⟨replaceRuns_length cs false, replaceRuns_no_whitespace cs false⟩
  · intro cs hch
    exact replaceRuns_single cs hch false (fun h => absurd h (by decide))

/-- C9, amended, on the valid page when no call raises: `doc.save` gets
`Invoice_INV-7_Ada_Lovelace.pdf`. -/
theorem fileName_rule_witness :
    (Call.save (fileName "INV-7" "Ada  Lovelace"), false)
      ∈ (generatePDF parseFloatPlain (fun _ => false) 1 1 validApp).attempted :=
  (fileName_rule parseFloatPlain (fun _ => false) 1 1 validApp).2.1
    ((validateForm parseFloatPlain validPage).getD (true, validPage)).2
    ⟨"Acme", "$", "INV-7", "Ada  Lovelace", "2024-01-10", "2024-02-09", "Consulting",
      parseFloatPlain "3", parseFloatPlain "150", parseFloatPlain "8", "Net 30", true⟩
    rfl rfl (fun _ => rfl)

/-- C8 at a PNG of 1 MiB: the listener changes nothing and the loaded read becomes the
logo reference. -/
theorem logo_upload_rule_witness :
    (logoChangeListener freshLogoState (some ⟨"image/png", 1 * 1024 * 1024⟩)).1
      = freshLogoState ∧
    ∀ result, (readerOnload
      (logoChangeListener freshLogoState (some ⟨"image/png", 1 * 1024 * 1024⟩)).1
      result).logoDataUrl = some result :=
  (logo_upload_rule freshLogoState ⟨"image/png", 1 * 1024 * 1024⟩).2.1 (by decide)


end InvoiceGenerator
